import Mathlib

/-!
Verification of the game-night-decider poll engine.

This file shallowly embeds the core logic of the repository:
  * `src/core/logic.py` — the complexity-based game splitter
    (`split_games`, `_find_best_split`, `_get_complexity_label`,
    `group_games_by_complexity`) and the full-mode winner resolver
    (`calculate_poll_winner`);
  * `src/core/models.py` — the data records the logic operates on;
  * `src/bot/handlers.py` — the simple-mode resolver
    (`calculate_winner_scores`), the AUTO vote-limit formula
    (`calculate_auto_vote_limit`), the custom-poll vote toggling, the
    poll-close category-vote resolution, and the stale-message guards of
    the lobby handlers.

Embedding conventions:
  * Python floats become `ℚ`.  All claim-relevant float operations are
    order comparisons and additions of halves, on which `ℚ` agrees with
    IEEE doubles for the magnitudes involved.
  * Python's stable `sorted` becomes `List.insertionSort`, which is also
    stable; with the same (total preorder) key the two produce identical
    lists.
  * Recursions that Python performs on shrinking slices are written with
    an explicit fuel argument instantiated with the list length, so that
    every definition is structural and kernel-evaluable.
  * Database rows become Lean structures; SQL queries become list
    filters over those rows.
-/

-- Batteries marks the arithmetic on `Rat` `@[irreducible]`, which stops
-- `decide` from evaluating ground rational terms during elaboration (the
-- kernel itself reduces them fine).  Re-mark them locally so concrete
-- runs of the embedded algorithms can be checked by `decide`.
attribute [local semireducible] Rat.add Rat.mul Rat.inv Rat.sub Rat.ofScientific

namespace GameNight

/-- The `Game` row of `src/core/models.py`.  `playing_time`,
`min/max_playing_time` and `thumbnail` are never read by the embedded
logic and are omitted.  `complexity` is the BGG weight; `≤ 0` means
unrated (the column is non-nullable, `logic.py`'s `or 0` guards are the
identity on it). -/
structure Game where
  id : Int
  name : String
  min_players : Int
  max_players : Int
  complexity : ℚ
deriving DecidableEq, Repr

/-- Embeds `g.complexity or 0` from `logic.py`.  On a non-null numeric this is
the identity (`0.0` is falsy in Python and is replaced by `0`). -/
def complexityOr0 (g : Game) : ℚ := g.complexity

/-- ASCII lower-casing of a name, `g.name.lower()` in the sort keys.
Written on the character list so that it kernel-evaluates. -/
def lowerName (s : String) : String := ⟨s.data.map Char.toLower⟩

/-- Lexicographic order on character lists: Python compares strings by
code points exactly this way.  (Lean's `String.le` has the same
semantics but its `String.ltb` implementation does not kernel-reduce,
so the embedding carries its own executable comparison.) -/
def charsLE : List Char → List Char → Bool
  | [], _ => true
  | _ :: _, [] => false
  | a :: as, b :: bs => if a < b then true else if a = b then charsLE as bs else false

/-- Compares `a <= b` on strings, by code points. -/
def strLE (a b : String) : Bool := charsLE a.data b.data

/-- Sort key order of `process_group`:
`sorted(group, key=lambda g: (g.complexity or 0, g.name.lower()))`. -/
def gameLE (a b : Game) : Prop :=
  complexityOr0 a < complexityOr0 b ∨
    (complexityOr0 a = complexityOr0 b ∧ strLE (lowerName a.name) (lowerName b.name) = true)

instance : DecidableRel gameLE := fun a b => by
  unfold gameLE; infer_instance

/-- Sort key order of the unrated pool: `key=lambda g: g.name.lower()`. -/
def nameLE (a b : Game) : Prop := strLE (lowerName a.name) (lowerName b.name) = true

instance : DecidableRel nameLE := fun a b => by
  unfold nameLE; infer_instance

/-- Embeds `_get_complexity_label` of `logic.py`. -/
def getComplexityLabel (minC maxC : ℚ) : String :=
  let avg := (minC + maxC) / 2
  if avg < 2 then "Light / Party Games"
  else if avg < 3 then "Medium Weight Games"
  else "Heavy Strategy Games"

/-- Embeds `games[i].complexity or 0` in `_find_best_split`; all accesses are
in range, the default covers the unreachable out-of-range case. -/
def complexityAt (games : List Game) (i : Nat) : ℚ :=
  ((games[i]?).map complexityOr0).getD 0

/-- Embeds `_find_best_split` of `logic.py`: gap analysis with edge penalties.
Python's `max(valid_gaps, key=...)` returns the first element attaining
the maximum, embedded as a fold that replaces only on strict increase. -/
def findBestSplit (games : List Game) (minGroupSize : Nat) : Option Nat :=
  let n := games.length
  if n < minGroupSize * 2 then none
  else
    let gaps : List (Nat × ℚ) := (List.range (n - 1)).map (fun i =>
      let c1 := complexityAt games i
      let c2 := complexityAt games (i + 1)
      let rawGap := c2 - c1
      let leftSize := i + 1
      let rightSize := n - leftSize
      let penalty : ℚ := if leftSize < 3 ∨ rightSize < 3 then 2/10 else 0
      (i + 1, rawGap - penalty))
    let validGaps := gaps.filter (fun p => minGroupSize ≤ p.1 ∧ minGroupSize ≤ n - p.1)
    match validGaps with
    | [] => none
    | h :: t => some ((t.foldl (fun best p => if best.2 < p.2 then p else best) h).1)

/-- Chunking `[group[i:i+m] for i in range(0, len(group), m)]`, written
with fuel (instantiated with the list length) so it is structural.
Python raises `ValueError` for `m = 0`; that region is junk here and all
theorems assume `1 ≤ m`. -/
def chunkFuel (m : Nat) : Nat → List Game → List (List Game)
  | _, [] => []
  | 0, _ :: _ => []
  | f + 1, x :: xs => (x :: xs).take m :: chunkFuel m f ((x :: xs).drop m)

/-- Embeds `chunks = [group[i:i+m] for i in range(0, len(group), m)]`. -/
def chunkList (m : Nat) (l : List Game) : List (List Game) :=
  chunkFuel m l.length l

/-- The dangling-chunk merge of `split_games`:
`if len(chunks) > 1 and len(chunks[-1]) == 1:
   chunks[-2].append(chunks[-1][0]); chunks = chunks[:-1]`. -/
def mergeDangling : List (List Game) → List (List Game)
  | [] => []
  | [c] => [c]
  | [c, d] => if d.length = 1 then [c ++ d] else [c, d]
  | c :: d :: e :: rest => c :: mergeDangling (d :: e :: rest)

/-- Embeds `for idx, chunk in enumerate(chunks): results.append((mk(idx, chunk), chunk))`. -/
def labelChunks (mk : Nat → List Game → String) : Nat → List (List Game) → List (String × List Game)
  | _, [] => []
  | i, c :: rest => (mk i c, c) :: labelChunks mk (i + 1) rest

/-- Chunk label of the `process_group` fallback:
`f"{base_label} ({idx+1}/{len(chunks)})" if len(chunks) > 1 else base_label`. -/
def chunkLabel (total : Nat) (idx : Nat) (chunk : List Game) : String :=
  let minC := ((chunk.head?).map complexityOr0).getD 0
  let maxC := ((chunk.getLast?).map complexityOr0).getD 0
  let baseLabel := getComplexityLabel minC maxC
  if 1 < total then baseLabel ++ " (" ++ toString (idx + 1) ++ "/" ++ toString total ++ ")"
  else baseLabel

/-- Embeds `process_group` of `split_games`, with fuel (instantiated with the
group length by `split_games`) making the recursion on split halves
structural.  `vlen` is `len(valid_games)` captured by the Python
closure; `labelPfx` is the `label_prefix` argument (every call site
passes `None`). -/
def processGroupFuel (m vlen : Nat) (labelPfx : Option String) :
    Nat → List Game → List (String × List Game)
  | _, [] => []
  | 0, _ :: _ => []
  | fuel + 1, x :: xs =>
    let g := (x :: xs).insertionSort gameLE
    if g.length ≤ m then
      let label :=
        match labelPfx with
        | some lp => lp
        | none =>
          if g.length = vlen then "Games"
          else
            let minC := ((g.head?).map complexityOr0).getD 0
            let maxC := ((g.getLast?).map complexityOr0).getD 0
            getComplexityLabel minC maxC
      [(label, g)]
    else
      match findBestSplit g 2 with
      | some idx =>
        processGroupFuel m vlen none fuel (g.take idx) ++
          processGroupFuel m vlen none fuel (g.drop idx)
      | none =>
        let cs := mergeDangling (chunkList m g)
        labelChunks (chunkLabel cs.length) 0 cs

/-- Embeds `valid_games = [g for g in games if g.name]` (empty string is falsy). -/
def validOf (games : List Game) : List Game :=
  games.filter (fun g => g.name ≠ "")

/-- Embeds `rated_games = [g for g in valid_games if (g.complexity or 0) > 0]`. -/
def ratedOf (games : List Game) : List Game :=
  (validOf games).filter (fun g => 0 < complexityOr0 g)

/-- Embeds `unrated_games = [g for g in valid_games if (g.complexity or 0) <= 0]`. -/
def unratedOf (games : List Game) : List Game :=
  (validOf games).filter (fun g => complexityOr0 g ≤ 0)

/-- Label of an unrated chunk:
`f"Unrated Games ({idx+1}/{len(chunks)})" if len(chunks) > 1 else "Unrated Games"`. -/
def unratedLabel (total : Nat) (idx : Nat) (_chunk : List Game) : String :=
  if 1 < total then
    "Unrated Games (" ++ toString (idx + 1) ++ "/" ++ toString total ++ ")"
  else "Unrated Games"

/-- Embeds `split_games` of `logic.py`.  The Python default for `max_per_poll`
is `10`; callers of the embedding pass it explicitly. -/
def split_games (games : List Game) (maxPerPoll : Nat) : List (String × List Game) :=
  if games.isEmpty then []
  else
    let validGames := validOf games
    if validGames.isEmpty then []
    else
      let ratedGames := ratedOf games
      let unratedGames := unratedOf games
      let ratedPart :=
        if ratedGames.isEmpty then []
        else processGroupFuel maxPerPoll validGames.length none ratedGames.length ratedGames
      let unratedPart :=
        if unratedGames.isEmpty then []
        else
          let sortedU := unratedGames.insertionSort nameLE
          let cs := mergeDangling (chunkList maxPerPoll sortedU)
          labelChunks (unratedLabel cs.length) 0 cs
      ratedPart ++ unratedPart

/-- Truncated complexity level of `group_games_by_complexity`:
`0` for unrated, otherwise `int(complexity)` clamped to `1..5`. -/
def levelOf (g : Game) : Int :=
  if g.complexity ≤ 0 then 0
  else
    let level := ⌊g.complexity⌋
    if level < 1 then 1 else if level > 5 then 5 else level

/-- Name order for the per-level sort of `group_games_by_complexity`
(`key=lambda g: g.name`, no lower-casing there). -/
def rawNameLE (a b : Game) : Prop := strLE a.name b.name = true

instance : DecidableRel rawNameLE := fun a b => by
  unfold rawNameLE; infer_instance

/-- Embeds `group_games_by_complexity` of `logic.py`, viewed through the
`groups.get(level, [])` lookups both call sites perform: level `L`
yields the name-sorted games of truncated complexity `L`, and any level
outside the dict's `0..5` key range yields `[]`. -/
def group_games_by_complexity (games : List Game) (level : Int) : List Game :=
  if level < 0 ∨ 5 < level then []
  else (games.filter (fun g => levelOf g = level)).insertionSort rawNameLE

/-- Structural floor-log₂ with fuel (`log2Fuel n n` is exact for all `n`). -/
def log2Fuel : Nat → Nat → Nat
  | 0, _ => 0
  | f + 1, n => if n ≤ 1 then 0 else log2Fuel f (n / 2) + 1

/-- Computes `⌊log₂ n⌋` for `n ≥ 1`. -/
def floorLog2 (n : Nat) : Nat := log2Fuel n n

/-- Computes `⌈log₂ n⌉` for `n ≥ 1`: the least `k` with `n ≤ 2 ^ k`. -/
def ceilLog2 (n : Nat) : Nat := if n ≤ 1 then 0 else floorLog2 (n - 1) + 1

/-- Embeds `calculate_auto_vote_limit` of `handlers.py`:
`max(3, math.ceil(math.log2(game_count)))` with a guard for
non-positive counts.  `math.log2` runs on IEEE doubles, which agree
with the exact `⌈log₂⌉` for every realistic game count. -/
def calculate_auto_vote_limit (gameCount : Int) : Int :=
  if gameCount ≤ 0 then 3
  else max 3 ((ceilLog2 gameCount.toNat : Nat) : Int)

/-! ### Vote records and the custom-poll winner computation -/

/-- The `PollVote` row (`models.py`): primary key `(poll_id, user_id,
game_id)`; `game_id` is `NULL` for native polls, a game id or a negative
category marker `-level` for custom polls. -/
structure PollVoteRec where
  poll_id : String
  user_id : Int
  game_id : Option Int
  user_name : String
deriving DecidableEq, Repr

/-- The `ResolvedVote` wrapper built at poll close: just the two fields
`calculate_poll_winner` reads. -/
structure RVote where
  game_id : Option Int
  user_id : Int
deriving DecidableEq, Repr

/-- The constant `STAR_BOOST = 0.5` of `logic.py`. -/
def STAR_BOOST : ℚ := 1/2

/-- Python-dict assignment `scores[name] = v`: overwrite in place if the
key exists (keeping its position, as Python dicts do), else append. -/
def dictInsert (d : List (String × ℚ)) (k : String) (v : ℚ) : List (String × ℚ) :=
  if (d.lookup k).isSome then d.map (fun p => if p.1 = k then (k, v) else p)
  else d ++ [(k, v)]

/-- Python truthiness of the `star_collections` argument: `None` and the
empty dict are falsy. -/
def scTruthy : Option (List (Int × List Int)) → Bool
  | none => false
  | some l => !l.isEmpty

/-- The loop body of `calculate_poll_winner` (one game of the `for`
loop): count the game's votes, apply the star boost when weighting is
on, record the modifier log entry, and assign the score under the
game's name. -/
def cpwStep (votes : List RVote) (priority_game_ids : List Int) (is_weighted : Bool)
    (star_collections : Option (List (Int × List Int)))
    (acc : List (String × ℚ) × List String) (game : Game) :
    List (String × ℚ) × List String :=
  let game_votes := votes.filter (fun v => v.game_id = some game.id)
  let base_votes : ℚ := game_votes.length
  let score := base_votes
  let boosted :=
    if is_weighted ∧ game.id ∈ priority_game_ids ∧ scTruthy star_collections then
      let voter_ids := (game_votes.map (fun v => v.user_id)).toFinset
      let starred_by := ((star_collections.getD []).lookup game.id).getD []
      let priority_voters := (starred_by.toFinset ∩ voter_ids).card
      if 0 < priority_voters then
        let boost := (priority_voters : ℚ) * STAR_BOOST
        (score + boost, acc.2 ++ [game.name ++ ": +" ++ toString boost ++ " (⭐)"])
      else (score, acc.2)
    else (score, acc.2)
  (dictInsert acc.1 game.name boosted.1, boosted.2)

/-- The final score `cpwStep` assigns to a game (the `boosted.1`
component, which does not depend on the accumulator). -/
def cpwValue (votes : List RVote) (priority_game_ids : List Int) (is_weighted : Bool)
    (star_collections : Option (List (Int × List Int))) (game : Game) : ℚ :=
  let game_votes := votes.filter (fun v => v.game_id = some game.id)
  let score : ℚ := game_votes.length
  if is_weighted ∧ game.id ∈ priority_game_ids ∧ scTruthy star_collections then
    let voter_ids := (game_votes.map (fun v => v.user_id)).toFinset
    let starred_by := ((star_collections.getD []).lookup game.id).getD []
    let priority_voters := (starred_by.toFinset ∩ voter_ids).card
    if 0 < priority_voters then score + (priority_voters : ℚ) * STAR_BOOST else score
  else score

/-- Embeds `calculate_poll_winner` of `logic.py`.  `star_collections` maps a
game id to the user ids who starred it (`dict.get(game.id, [])` becomes
an association-list lookup with default `[]`).  The modifier-log string
renders the boost as a rational rather than a float; no claim depends on
that rendering. -/
def calculate_poll_winner (games : List Game) (votes : List RVote)
    (priority_game_ids : List Int) (is_weighted : Bool)
    (star_collections : Option (List (Int × List Int))) :
    List String × List (String × ℚ) × List String :=
  let acc := games.foldl
    (cpwStep votes priority_game_ids is_weighted star_collections) ([], [])
  let scores := acc.1
  let winners :=
    if scores.isEmpty then []
    else
      let values := scores.map Prod.snd
      let maxScore := values.foldl max (values.headD 0)
      if 0 < maxScore then (scores.filter (fun p => p.2 = maxScore)).map Prod.fst
      else []
  (winners, scores, acc.2)

/-! ### Poll-close category resolution (`custom_poll_action_callback`,
`poll_close` branch of `handlers.py`) -/

/-- One vote of the first pass of the close operation: a category vote
(negative `game_id`) whose level is not yet resolved draws one game from
that level's candidate group (skipped when the group is empty); every
other vote leaves the resolutions untouched. -/
def bcrStep (choose : List Game → Game) (groups : Int → List Game)
    (res : List (Int × Game)) (v : PollVoteRec) : List (Int × Game) :=
  match v.game_id with
  | some gid =>
    if gid < 0 then
      let level := -gid
      if (res.lookup level).isNone then
        let target_group := groups level
        if target_group.isEmpty then res
        else res ++ [(level, choose target_group)]
      else res
    else res
  | none => res

/-- First pass of the close operation: walk the votes in order,
resolving each category level at most once.  `choose` stands for
`random.choice`, which on a non-empty list returns one of its
elements. -/
def buildCategoryResolutions (choose : List Game → Game) (groups : Int → List Game)
    (votes : List PollVoteRec) : List (Int × Game) :=
  votes.foldl (bcrStep choose groups) []

/-- Second pass: convert every vote to a `ResolvedVote`, mapping each
category vote to its level's resolved game and silently dropping
category votes whose level was never resolved. -/
def resolveVotes (resolutions : List (Int × Game)) (votes : List PollVoteRec) :
    List RVote :=
  votes.flatMap (fun v =>
    match v.game_id with
    | some gid =>
      if gid < 0 then
        match resolutions.lookup (-gid) with
        | some g => [⟨some g.id, v.user_id⟩]
        | none => []
      else [⟨some gid, v.user_id⟩]
    | none => [⟨none, v.user_id⟩])

/-! ### Collections, sessions, and the simple-mode winner scores -/

namespace GameState
/-- Embeds `GameState.INCLUDED`. -/
def INCLUDED : Nat := 0
/-- Embeds `GameState.STARRED`. -/
def STARRED : Nat := 1
/-- Embeds `GameState.EXCLUDED`. -/
def EXCLUDED : Nat := 2
end GameState

namespace PollType
/-- Embeds `PollType.CUSTOM`. -/
def CUSTOM : Nat := 0
/-- Embeds `PollType.NATIVE`. -/
def NATIVE : Nat := 1
end PollType

namespace VoteLimit
/-- Embeds `VoteLimit.AUTO`. -/
def AUTO : Int := -1
/-- Embeds `VoteLimit.UNLIMITED`. -/
def UNLIMITED : Int := 0
end VoteLimit

/-- The `Collection` row (`models.py`): three-state flag plus the
expansion-effective max player count. -/
structure CollectionRec where
  user_id : Int
  game_id : Int
  state : Nat
  effective_max_players : Option Int
deriving DecidableEq, Repr

/-- The `Session` row (`models.py`), restricted to the fields the embedded
handlers read. -/
structure SessionRec where
  is_active : Bool
  settings_weighted : Bool
  poll_type : Nat
  message_id : Option Int
  hide_voters : Bool
  vote_limit : Int
deriving DecidableEq, Repr

/-- One native-poll option as `calculate_winner_scores` receives it:
rendered text plus the transport-reported voter count. -/
structure PollOptionRec where
  text : String
  voter_count : Nat
deriving DecidableEq, Repr

/-- Embeds `text.replace("⭐ ", "")` on the character list (Python's `replace`
removes every non-overlapping occurrence, scanning left to right). -/
def replaceStarSp : List Char → List Char
  | [] => []
  | '⭐' :: ' ' :: rest => replaceStarSp rest
  | c :: rest => c :: replaceStarSp rest

/-- Embeds `clean_name = text.replace("⭐ ", "")`. -/
def cleanedName (s : String) : String := ⟨replaceStarSp s.data⟩

/-- Embeds `"⭐" in text`. -/
def hasStar (s : String) : Bool := s.data.contains '⭐'

/-- Embeds `select(Game).where(Game.name == clean_name)` followed by
`scalar_one_or_none()`: `some` exactly when one game carries the name.
(Several rows would raise `MultipleResultsFound`; that error case is
modelled as `none` and the theorems below work in the unique-name
regime.) -/
def findGameByName (games : List Game) (name : String) : Option Game :=
  match games.filter (fun g => g.name = name) with
  | [g] => some g
  | _ => none

/-- The per-option score of `calculate_winner_scores` (simple mode):
the externally reported voter count plus the star boost, where
`priority_count` counts the collection rows of session players that
star the matched game — the SQL
`count(Collection.user_id) where game_id = game.id and user_id in
player_ids and state == STARRED`. -/
def cwsValue (isWeighted : Bool) (playerIds : List Int) (colls : List CollectionRec)
    (games : List Game) (option : PollOptionRec) : ℚ :=
  let text := option.text
  let clean_name := cleanedName text
  let base_score : ℚ := option.voter_count
  let modifier_score : ℚ :=
    if isWeighted ∧ hasStar text then
      match findGameByName games clean_name with
      | some game =>
        let priority_count := (colls.filter (fun c =>
          c.game_id = game.id ∧ c.user_id ∈ playerIds ∧
            c.state = GameState.STARRED)).length
        if 0 < priority_count then (priority_count : ℚ) * STAR_BOOST else 0
      | none => 0
    else 0
  base_score + modifier_score

def calculate_winner_scores (isWeighted : Bool) (playerIds : List Int)
    (colls : List CollectionRec) (games : List Game)
    (options : List PollOptionRec) : List (String × ℚ) × String :=
  let acc := options.foldl (fun acc option =>
    (dictInsert acc.1 (cleanedName option.text)
      (cwsValue isWeighted playerIds colls games option), acc.2))
    (([], []) : List (String × ℚ) × List String)
  let modifiers_info :=
    if isWeighted then
      acc.2 ++ ["Weighted votes active: +" ++ toString STAR_BOOST ++ "/⭐ per user"]
    else acc.2
  (acc.1, String.intercalate " | " modifiers_info)

/-! ### Vote toggling (`custom_poll_vote_callback` and the
`poll_random_vote` branch of `custom_poll_action_callback`) -/

/-- Effective vote limit: `AUTO` recomputes from the live candidate
count, `UNLIMITED` disables the check, any other stored value is the
static limit. -/
def effectiveLimit (voteLimit : Int) (validGameCount : Int) : Option Int :=
  if voteLimit = VoteLimit.AUTO then some (calculate_auto_vote_limit validGameCount)
  else if voteLimit = VoteLimit.UNLIMITED then none
  else some voteLimit

/-- Embeds `select(func.count(PollVote.game_id)).where(poll_id == p, user_id == u)`.
SQL `count(column)` skips `NULL` values, hence the `game_id ≠ none`
conjunct. -/
def countUserVotes (votes : List PollVoteRec) (pollId : String) (userId : Int) : Nat :=
  (votes.filter (fun v =>
    v.poll_id = pollId ∧ v.user_id = userId ∧ v.game_id ≠ none)).length

/-- The row key the toggle handlers select on. -/
def matchesVote (pollId : String) (userId : Int) (gid : Option Int)
    (v : PollVoteRec) : Prop :=
  v.poll_id = pollId ∧ v.user_id = userId ∧ v.game_id = gid

instance (pollId : String) (userId : Int) (gid : Option Int) :
    DecidablePred (matchesVote pollId userId gid) := fun v => by
  unfold matchesVote; infer_instance

/-- Outcome reported to the user by a toggle handler. -/
inductive VoteOutcome
  | removed
  | recorded
  | limitReached
  | noGames
deriving DecidableEq, Repr

/-- The vote-toggle core of `custom_poll_vote_callback` (lines
2351–2394): an existing `(poll, user, game)` row is deleted
unconditionally; otherwise the vote limit is checked (skipped when no
session row exists) before the row is inserted. -/
def toggleVote (sessionOpt : Option SessionRec) (validGameCount : Int)
    (votes : List PollVoteRec) (pollId : String) (userId : Int) (gameId : Int)
    (userName : String) : List PollVoteRec × VoteOutcome :=
  let existing := votes.filter (fun v => matchesVote pollId userId (some gameId) v)
  if ¬ existing.isEmpty then
    (votes.filter (fun v => ¬ matchesVote pollId userId (some gameId) v), .removed)
  else
    match sessionOpt with
    | some s =>
      let user_vote_count := countUserVotes votes pollId userId
      match effectiveLimit s.vote_limit validGameCount with
      | some lim =>
        if (user_vote_count : Int) ≥ lim then (votes, .limitReached)
        else (votes ++ [⟨pollId, userId, some gameId, userName⟩], .recorded)
      | none => (votes ++ [⟨pollId, userId, some gameId, userName⟩], .recorded)
    | none => (votes ++ [⟨pollId, userId, some gameId, userName⟩], .recorded)

/-- The category-vote toggle of the `poll_random_vote` branch (lines
2656–2752): category votes are stored with `game_id = -level`; an empty
candidate group rejects the action; an existing category row is removed
before any limit check; otherwise the same limit logic as `toggleVote`
guards the insert (`AUTO` uses `len(valid_games)` live). -/
def toggleCategoryVote (sessionOpt : Option SessionRec) (validGames : List Game)
    (votes : List PollVoteRec) (pollId : String) (userId : Int) (level : Int)
    (userName : String) : List PollVoteRec × VoteOutcome :=
  let category_marker := -level
  let target_group := group_games_by_complexity validGames level
  if target_group.isEmpty then (votes, .noGames)
  else
    let existing := votes.filter (fun v => matchesVote pollId userId (some category_marker) v)
    if ¬ existing.isEmpty then
      (votes.filter (fun v => ¬ matchesVote pollId userId (some category_marker) v), .removed)
    else
      match sessionOpt with
      | some s =>
        let user_vote_count := countUserVotes votes pollId userId
        match effectiveLimit s.vote_limit validGames.length with
        | some lim =>
          if (user_vote_count : Int) ≥ lim then (votes, .limitReached)
          else (votes ++ [⟨pollId, userId, some category_marker, userName⟩], .recorded)
        | none => (votes ++ [⟨pollId, userId, some category_marker, userName⟩], .recorded)
      | none => (votes ++ [⟨pollId, userId, some category_marker, userName⟩], .recorded)

/-- The vote-limit check passes for a new vote: no session row, no
effective limit, or the player's current (non-null) vote count is
strictly below the limit. -/
def limitAllows (sessionOpt : Option SessionRec) (validGameCount : Int)
    (votes : List PollVoteRec) (pollId : String) (userId : Int) : Prop :=
  match sessionOpt with
  | none => True
  | some s =>
    match effectiveLimit s.vote_limit validGameCount with
    | none => True
    | some lim => (countUserVotes votes pollId userId : Int) < lim

/-! ### Lobby handlers and the stale-message guard -/

/-- The `User` row (`models.py`). -/
structure UserRec where
  telegram_id : Int
  telegram_name : Option String
  bgg_username : Option String
  is_guest : Bool
deriving DecidableEq, Repr

/-- The `GameNightPoll` row (`models.py`). -/
structure GNPollRec where
  poll_id : String
  chat_id : Int
  message_id : Int
deriving DecidableEq, Repr

/-- Persistent state of one chat room: the session row, the user table,
the `SessionPlayer` user ids of this chat, collections, cached games,
tracked polls and their votes. -/
structure DB where
  sessionRow : Option SessionRec
  users : List UserRec
  sessionPlayers : List Int
  collections : List CollectionRec
  games : List Game
  polls : List GNPollRec
  votes : List PollVoteRec
deriving DecidableEq, Repr

/-- Python truthiness of the `message_id` column (`None` and `0` falsy). -/
def msgIdTruthy : Option Int → Bool
  | none => false
  | some m => m ≠ 0

/-- The guard `session_obj and session_obj.message_id and
session_obj.message_id != message_id` shared by the lobby handlers. -/
def sessionExpired (sessionOpt : Option SessionRec) (messageId : Int) : Bool :=
  match sessionOpt with
  | some s =>
    match s.message_id with
    | some m => decide (m ≠ 0 ∧ m ≠ messageId)
    | none => false
  | none => false

/-- Replies of the embedded lobby handlers. -/
inductive LobbyResp
  | expired
  | ok
  | notInSession
  | noPlayers
  | needTwoPlayers
  | noGames
deriving DecidableEq, Repr

/-- Embeds `join_lobby_callback` (lines 459–584): stale guard, then user
upsert (create, or refresh a changed display name), then idempotent
`SessionPlayer` insert.  Message rendering is transport-side and not
part of the state. -/
def join_lobby (db : DB) (messageId : Int) (userId : Int) (userName : String) :
    DB × LobbyResp :=
  if sessionExpired db.sessionRow messageId then (db, .expired)
  else
    let db1 :=
      if (db.users.filter (fun u => u.telegram_id = userId)).isEmpty then
        { db with users := db.users ++ [⟨userId, some userName, none, false⟩] }
      else
        { db with users := db.users.map (fun u =>
            if u.telegram_id = userId ∧ u.telegram_name ≠ some userName then
              { u with telegram_name := some userName }
            else u) }
    let db2 :=
      if userId ∈ db1.sessionPlayers then db1
      else { db1 with sessionPlayers := db1.sessionPlayers ++ [userId] }
    (db2, .ok)

/-- Embeds `leave_lobby_callback` (lines 586–674): stale guard, membership
check, player removal, and atomic guest cleanup (collection rows and
the guest user). -/
def leave_lobby (db : DB) (messageId : Int) (userId : Int) : DB × LobbyResp :=
  if sessionExpired db.sessionRow messageId then (db, .expired)
  else if ¬ userId ∈ db.sessionPlayers then (db, .notInSession)
  else
    let db1 := { db with sessionPlayers := db.sessionPlayers.filter (fun p => p ≠ userId) }
    let isGuest := db1.users.any (fun u => u.telegram_id = userId ∧ u.is_guest)
    if isGuest then
      ({ db1 with
          collections := db1.collections.filter (fun c => c.user_id ≠ userId),
          users := db1.users.filter (fun u => u.telegram_id ≠ userId) }, .ok)
    else (db1, .ok)

/-- Embeds `toggle_weights_callback` (lines 1435–1488): a settings-change
action; no session row means the handler silently does nothing. -/
def toggle_weights (db : DB) (messageId : Int) : DB × LobbyResp :=
  match db.sessionRow with
  | none => (db, .ok)
  | some s =>
    if sessionExpired (some s) messageId then (db, .expired)
    else
      ({ db with sessionRow := some { s with settings_weighted := !s.settings_weighted } },
        .ok)

/-- The valid-games query shared by `start_poll_callback` and
`get_session_valid_games`: games owned (not excluded) by some session
player and supporting the current player count, with the
expansion-effective max player count when set. -/
def validGamesQuery (games : List Game) (colls : List CollectionRec)
    (playerIds : List Int) : List Game :=
  let playerCount : Int := playerIds.length
  games.filter (fun g =>
    colls.any (fun c =>
      c.game_id = g.id ∧ c.user_id ∈ playerIds ∧ c.state ≠ GameState.EXCLUDED ∧
        g.min_players ≤ playerCount ∧
        (c.effective_max_players.getD g.max_players) ≥ playerCount))

/-- The starred-by-any-session-player game ids (`distinct`). -/
def priorityIdsQuery (colls : List CollectionRec) (playerIds : List Int) : List Int :=
  ((colls.filter (fun c => c.user_id ∈ playerIds ∧ c.state = GameState.STARRED)).map
    (fun c => c.game_id)).dedup

/-- Embeds `start_poll_callback` (lines 1491–1641): stale guard, player-count
guards, defensive close-and-delete of every tracked poll (vote rows
cascade with their poll), candidate computation, then either one custom
poll record or one native poll record per chunk with at least two
options.  `customIds`/`nativeIds` supply the transport-allocated
`(poll_id, message_id)` pairs the handler would receive from sent
messages. -/
def start_poll (db : DB) (chatId : Int) (messageId : Int)
    (customIds : String × Int) (nativeIds : Nat → String × Int) : DB × LobbyResp :=
  if sessionExpired db.sessionRow messageId then (db, .expired)
  else
    let players := db.sessionPlayers
    if players.isEmpty then (db, .noPlayers)
    else if players.length < 2 then (db, .needTwoPlayers)
    else
      let db1 := { db with
        polls := [],
        votes := db.votes.filter (fun v => db.polls.all (fun p => p.poll_id ≠ v.poll_id)) }
      let totalGames : Nat := ((db1.collections.filter (fun c => c.user_id ∈ players)).map
        (fun c => c.game_id)).dedup.length
      if totalGames = 0 then (db1, .noGames)
      else
        let valid_games := validGamesQuery db1.games db1.collections players
        let priority_game_ids := priorityIdsQuery db1.collections players
        if valid_games.isEmpty then (db1, .noGames)
        else
          let isCustom :=
            match db1.sessionRow with
            | some s => decide (s.poll_type = PollType.CUSTOM)
            | none => false
          if isCustom then
            ({ db1 with polls := [⟨customIds.1, chatId, customIds.2⟩] }, .ok)
          else
            let chunks := split_games valid_games 10
            let sent := chunks.foldl (fun (acc : List GNPollRec × Nat) chunk =>
              let options : List String := chunk.2.map (fun g =>
                if g.id ∈ priority_game_ids then "⭐ " ++ g.name else g.name)
              if options.length < 2 then acc
              else
                let ids := nativeIds acc.2
                (acc.1 ++ [⟨ids.1, chatId, ids.2⟩], acc.2 + 1)) ([], 0)
            ({ db1 with polls := sent.1 }, .ok)

/-! ## Lemmas about chunking and the dangling-chunk merge -/

theorem chunkFuel_join (m : Nat) (hm : 1 ≤ m) :
    ∀ (f : Nat) (l : List Game), l.length ≤ f → (chunkFuel m f l).flatten = l := by
  intro f
  induction f with
  | zero =>
    intro l hl
    cases l with
    | nil => simp [chunkFuel]
    | cons x xs => simp at hl
  | succ f ih =>
    intro l hl
    cases l with
    | nil => simp [chunkFuel]
    | cons x xs =>
      have hdrop : ((x :: xs).drop m).length ≤ f := by
        simp only [List.length_drop, List.length_cons] at hl ⊢
        omega
      simp only [chunkFuel, List.flatten_cons, ih _ hdrop, List.take_append_drop]

theorem chunkFuel_mem (m : Nat) (hm : 1 ≤ m) :
    ∀ (f : Nat) (l : List Game) (c : List Game), c ∈ chunkFuel m f l →
      c.length ≤ m ∧ c ≠ [] := by
  intro f
  induction f with
  | zero =>
    intro l c hc
    cases l with
    | nil => simp [chunkFuel] at hc
    | cons x xs => simp [chunkFuel] at hc
  | succ f ih =>
    intro l c hc
    cases l with
    | nil => simp [chunkFuel] at hc
    | cons x xs =>
      simp only [chunkFuel, List.mem_cons] at hc
      rcases hc with rfl | hc
      · refine ⟨by simp [List.length_take], ?_⟩
        cases m with
        | zero => omega
        | succ m => simp [List.take]
      · exact ih _ c hc

theorem chunkFuel_dropLast (m : Nat) :
    ∀ (f : Nat) (l : List Game) (c : List Game), c ∈ (chunkFuel m f l).dropLast →
      c.length = m := by
  intro f
  induction f with
  | zero =>
    intro l c hc
    cases l with
    | nil => simp [chunkFuel] at hc
    | cons x xs => simp [chunkFuel] at hc
  | succ f ih =>
    intro l c hc
    cases l with
    | nil => simp [chunkFuel] at hc
    | cons x xs =>
      simp only [chunkFuel] at hc
      rcases hrest : chunkFuel m f ((x :: xs).drop m) with _ | ⟨r, rs⟩
      · rw [hrest] at hc; simp at hc
      · rw [hrest, List.dropLast_cons₂, List.mem_cons] at hc
        rcases hc with rfl | hc
        · -- a later chunk exists, so this one is full
          have hne : (x :: xs).drop m ≠ [] := by
            intro hnil
            rw [hnil] at hrest
            simp [chunkFuel] at hrest
          have hpos : 0 < ((x :: xs).drop m).length := List.length_pos.2 hne
          simp only [List.length_drop, List.length_cons] at hpos
          simp only [List.length_take, List.length_cons]
          omega
        · exact ih _ c (by rw [hrest]; exact hc)

theorem chunkFuel_single (m : Nat) (f : Nat) (l : List Game) (hne : l ≠ [])
    (hf : l.length ≤ f) (hlen : l.length ≤ m) : chunkFuel m f l = [l] := by
  cases l with
  | nil => exact absurd rfl hne
  | cons x xs =>
    cases f with
    | zero => simp at hf
    | succ f =>
      have htake : (x :: xs).take m = x :: xs := List.take_of_length_le hlen
      have hdrop : (x :: xs).drop m = [] := List.drop_eq_nil_iff.2 hlen
      simp [chunkFuel, htake, hdrop]

theorem chunkFuel_two (m : Nat) (hm : 1 ≤ m) (f : Nat) (l : List Game)
    (hf : l.length ≤ f) (hlen : m < l.length) :
    2 ≤ (chunkFuel m f l).length := by
  cases l with
  | nil => simp at hlen
  | cons x xs =>
    cases f with
    | zero => simp at hf
    | succ f =>
      have hne : (x :: xs).drop m ≠ [] := by
        refine List.length_pos.1 ?_
        simp only [List.length_drop, List.length_cons] at hlen ⊢
        omega
      have hrest : chunkFuel m f ((x :: xs).drop m) ≠ [] := by
        rcases hd : (x :: xs).drop m with _ | ⟨r, rs⟩
        · exact absurd hd hne
        · cases f with
          | zero =>
            exfalso
            have hlen' := congrArg List.length hd
            simp only [List.length_drop, List.length_cons] at hlen' hf hlen
            omega
          | succ f => simp [chunkFuel]
      simp only [chunkFuel, List.length_cons]
      have := List.length_pos.2 hrest
      omega

theorem mergeDangling_join :
    ∀ cs : List (List Game), (mergeDangling cs).flatten = cs.flatten := by
  intro cs
  induction cs with
  | nil => rfl
  | cons c rest ih =>
    cases rest with
    | nil => rfl
    | cons d rest' =>
      cases rest' with
      | nil =>
        by_cases hd : d.length = 1 <;> simp [mergeDangling, hd]
      | cons e rest'' =>
        simp only [mergeDangling, List.flatten_cons] at ih ⊢
        simp [ih]

theorem mergeDangling_maxLen (m : Nat) :
    ∀ cs : List (List Game), (∀ c ∈ cs, c.length ≤ m) →
      ∀ c ∈ mergeDangling cs, c.length ≤ m + 1 := by
  intro cs
  induction cs with
  | nil => intro _ c hc; simp [mergeDangling] at hc
  | cons c rest ih =>
    intro hall d hd
    cases rest with
    | nil =>
      simp only [mergeDangling, List.mem_singleton] at hd
      subst hd
      exact le_trans (hall d (by simp)) (by omega)
    | cons c2 rest' =>
      cases rest' with
      | nil =>
        by_cases h1 : c2.length = 1
        · simp [mergeDangling, h1] at hd
          subst hd
          have hc := hall c (by simp)
          simp only [List.length_append, h1]
          omega
        · simp [mergeDangling, h1] at hd
          rcases hd with rfl | rfl
          · exact le_trans (hall d (by simp)) (by omega)
          · exact le_trans (hall d (by simp)) (by omega)
      | cons c3 rest'' =>
        simp only [mergeDangling, List.mem_cons] at hd
        rcases hd with rfl | hd
        · exact le_trans (hall d (by simp)) (by omega)
        · refine ih ?_ d hd
          intro x hx
          exact hall x (List.mem_cons_of_mem _ hx)

theorem mergeDangling_minLen (m : Nat) (hm : 2 ≤ m) :
    ∀ cs : List (List Game), (∀ c ∈ cs.dropLast, c.length = m) →
      (∀ c ∈ cs, c ≠ []) → 2 ≤ cs.length →
      ∀ c ∈ mergeDangling cs, 2 ≤ c.length := by
  intro cs
  induction cs with
  | nil => intro _ _ h2; simp at h2
  | cons c rest ih =>
    intro hfull hne h2 d hd
    cases rest with
    | nil => simp at h2
    | cons c2 rest' =>
      cases rest' with
      | nil =>
        have hc : c.length = m := hfull c (by simp)
        by_cases h1 : c2.length = 1
        · simp [mergeDangling, h1] at hd
          subst hd
          simp only [List.length_append, hc, h1]
          omega
        · simp [mergeDangling, h1] at hd
          rcases hd with rfl | rfl
          · omega
          · have hpos : 0 < d.length := List.length_pos.2 (hne d (by simp))
            omega
      | cons c3 rest'' =>
        simp only [mergeDangling, List.mem_cons] at hd
        rcases hd with rfl | hd
        · have : d.length = m := hfull d (by simp)
          omega
        · refine ih ?_ ?_ (by simp) d hd
          · intro x hx
            refine hfull x ?_
            simp only [List.dropLast_cons₂] at hx ⊢
            exact List.mem_cons_of_mem _ hx
          · intro x hx
            exact hne x (List.mem_cons_of_mem _ hx)

/-- The chunk-and-merge pipeline shared by the `process_group` fallback
and the unrated pool: every produced group has at least two games, or
is the whole input list. -/
theorem chunkMerge_minLen (m : Nat) (hm : 2 ≤ m) (l : List Game) :
    ∀ c ∈ mergeDangling (chunkList m l), 2 ≤ c.length ∨ c = l := by
  intro c hc
  by_cases hlen : l.length ≤ m
  · by_cases hnil : l = []
    · subst hnil; simp [chunkList, chunkFuel, mergeDangling] at hc
    · rw [chunkList, chunkFuel_single m l.length l hnil le_rfl hlen] at hc
      simp only [mergeDangling, List.mem_singleton] at hc
      exact Or.inr hc
  · left
    push_neg at hlen
    refine mergeDangling_minLen m hm (chunkList m l) ?_ ?_ ?_ c hc
    · exact fun d hd => chunkFuel_dropLast m l.length l d hd
    · exact fun d hd => (chunkFuel_mem m (by omega) l.length l d hd).2
    · exact chunkFuel_two m (by omega) l.length l le_rfl hlen

theorem chunkMerge_maxLen (m : Nat) (hm : 1 ≤ m) (l : List Game) :
    ∀ c ∈ mergeDangling (chunkList m l), c.length ≤ m + 1 := by
  intro c hc
  exact mergeDangling_maxLen m (chunkList m l)
    (fun d hd => (chunkFuel_mem m hm l.length l d hd).1) c hc

theorem chunkMerge_join (m : Nat) (hm : 1 ≤ m) (l : List Game) :
    (mergeDangling (chunkList m l)).flatten = l := by
  rw [mergeDangling_join, chunkList, chunkFuel_join m hm l.length l le_rfl]

/-! ## Lemmas about chunk labelling -/

theorem labelChunks_mem (mk : Nat → List Game → String) :
    ∀ (i : Nat) (cs : List (List Game)) (p : String × List Game),
      p ∈ labelChunks mk i cs → p.2 ∈ cs := by
  intro i cs
  induction cs generalizing i with
  | nil => intro p hp; simp [labelChunks] at hp
  | cons c rest ih =>
    intro p hp
    simp only [labelChunks, List.mem_cons] at hp
    rcases hp with rfl | hp
    · simp
    · exact List.mem_cons_of_mem _ (ih (i + 1) p hp)

theorem labelChunks_map_snd (mk : Nat → List Game → String) :
    ∀ (i : Nat) (cs : List (List Game)),
      (labelChunks mk i cs).map Prod.snd = cs := by
  intro i cs
  induction cs generalizing i with
  | nil => rfl
  | cons c rest ih => simp [labelChunks, ih]

/-! ## Lemmas about the split-point search -/

theorem foldlChoose_mem :
    ∀ (t : List (Nat × ℚ)) (h : Nat × ℚ),
      t.foldl (fun best p => if best.2 < p.2 then p else best) h ∈ h :: t := by
  intro t
  induction t with
  | nil => intro h; simp
  | cons p t' ih =>
    intro h
    simp only [List.foldl_cons]
    rcases List.mem_cons.1 (ih (if h.2 < p.2 then p else h)) with heq | hmem
    · rw [heq]
      by_cases hc : h.2 < p.2 <;> simp [hc]
    · exact List.mem_cons_of_mem _ (List.mem_cons_of_mem _ hmem)

theorem findBestSplit_bounds (g : List Game) (k : Nat) (hk : 1 ≤ k) (idx : Nat)
    (h : findBestSplit g k = some idx) : k ≤ idx ∧ idx + k ≤ g.length := by
  simp only [findBestSplit] at h
  by_cases hn : g.length < k * 2
  · rw [if_pos hn] at h; exact absurd h (by simp)
  · rw [if_neg hn] at h
    rcases hv : (List.range (g.length - 1)).map (fun i =>
        (i + 1, complexityAt g (i + 1) - complexityAt g i -
          if i + 1 < 3 ∨ g.length - (i + 1) < 3 then 2/10 else 0)) |>.filter
        (fun p => k ≤ p.1 ∧ k ≤ g.length - p.1) with _ | ⟨vh, vt⟩
    · rw [hv] at h; exact absurd h (by simp)
    · rw [hv] at h
      have hidx : (vt.foldl (fun best p => if best.2 < p.2 then p else best) vh).1 = idx :=
        Option.some.inj h
      have hmem : (vt.foldl (fun best p => if best.2 < p.2 then p else best) vh) ∈ vh :: vt :=
        foldlChoose_mem vt vh
      rw [← hv] at hmem
      have hfilter := List.of_mem_filter hmem
      simp only [decide_eq_true_eq] at hfilter
      rw [hidx] at hfilter
      refine ⟨hfilter.1, ?_⟩
      have := hfilter.2
      omega

/-! ## The `process_group` invariants -/

theorem insertionSort_singleton (r : Game → Game → Prop) [DecidableRel r] (x : Game) :
    List.insertionSort r [x] = [x] := by
  simp [List.insertionSort, List.orderedInsert]

theorem processGroupFuel_minLen (m vlen : Nat) (hm : 2 ≤ m) :
    ∀ (fuel : Nat) (pfx : Option String) (group : List Game),
      ∀ p ∈ processGroupFuel m vlen pfx fuel group,
        2 ≤ p.2.length ∨ (group.length = 1 ∧ p.2 = group) := by
  intro fuel
  induction fuel with
  | zero =>
    intro pfx group p hp
    cases group <;> simp [processGroupFuel] at hp
  | succ fuel ih =>
    intro pfx group p hp
    cases group with
    | nil => simp [processGroupFuel] at hp
    | cons x xs =>
      simp only [processGroupFuel] at hp
      by_cases hfit : ((x :: xs).insertionSort gameLE).length ≤ m
      · rw [if_pos hfit] at hp
        simp only [List.mem_singleton] at hp
        have hlen : ((x :: xs).insertionSort gameLE).length = (x :: xs).length :=
          List.length_insertionSort gameLE (x :: xs)
        by_cases h1 : xs = []
        · right
          subst h1
          exact ⟨rfl, by rw [hp, insertionSort_singleton]⟩
        · left
          rw [hp, hlen]
          simp only [List.length_cons]
          have := List.length_pos.2 h1
          omega
      · rw [if_neg hfit] at hp
        rcases hsplit : findBestSplit ((x :: xs).insertionSort gameLE) 2 with _ | idx
        · rw [hsplit] at hp
          have hmem := labelChunks_mem _ 0 _ p hp
          rcases chunkMerge_minLen m hm _ p.2 hmem with h2 | heq
          · exact Or.inl h2
          · left
            rw [heq, List.length_insertionSort]
            simp only [not_le] at hfit
            rw [List.length_insertionSort] at hfit
            omega
        · rw [hsplit] at hp
          rcases findBestSplit_bounds _ 2 (by omega) idx hsplit with ⟨hk1, hk2⟩
          rcases List.mem_append.1 hp with hl | hr
          · rcases ih none _ p hl with h2 | ⟨hlen1, _⟩
            · exact Or.inl h2
            · exfalso
              rw [List.length_take] at hlen1
              omega
          · rcases ih none _ p hr with h2 | ⟨hlen1, _⟩
            · exact Or.inl h2
            · exfalso
              rw [List.length_drop] at hlen1
              omega

theorem processGroupFuel_maxLen (m vlen : Nat) (hm : 1 ≤ m) :
    ∀ (fuel : Nat) (pfx : Option String) (group : List Game),
      ∀ p ∈ processGroupFuel m vlen pfx fuel group, p.2.length ≤ m + 1 := by
  intro fuel
  induction fuel with
  | zero =>
    intro pfx group p hp
    cases group <;> simp [processGroupFuel] at hp
  | succ fuel ih =>
    intro pfx group p hp
    cases group with
    | nil => simp [processGroupFuel] at hp
    | cons x xs =>
      simp only [processGroupFuel] at hp
      by_cases hfit : ((x :: xs).insertionSort gameLE).length ≤ m
      · rw [if_pos hfit] at hp
        simp only [List.mem_singleton] at hp
        rw [hp]
        exact le_trans hfit (by omega)
      · rw [if_neg hfit] at hp
        rcases hsplit : findBestSplit ((x :: xs).insertionSort gameLE) 2 with _ | idx
        · rw [hsplit] at hp
          exact chunkMerge_maxLen m hm _ p.2 (labelChunks_mem _ 0 _ p hp)
        · rw [hsplit] at hp
          rcases List.mem_append.1 hp with hl | hr
          · exact ih none _ p hl
          · exact ih none _ p hr

theorem processGroupFuel_flatten (m vlen : Nat) (hm : 1 ≤ m) :
    ∀ (fuel : Nat) (pfx : Option String) (group : List Game), group.length ≤ fuel →
      ((processGroupFuel m vlen pfx fuel group).map Prod.snd).flatten.Perm group := by
  intro fuel
  induction fuel with
  | zero =>
    intro pfx group hlen
    cases group with
    | nil => simp [processGroupFuel]
    | cons x xs => simp at hlen
  | succ fuel ih =>
    intro pfx group hlen
    cases group with
    | nil => simp [processGroupFuel]
    | cons x xs =>
      simp only [processGroupFuel]
      by_cases hfit : ((x :: xs).insertionSort gameLE).length ≤ m
      · rw [if_pos hfit]
        simp only [List.map_cons, List.map_nil, List.flatten_cons, List.flatten_nil,
          List.append_nil]
        exact List.perm_insertionSort gameLE (x :: xs)
      · rw [if_neg hfit]
        rcases hsplit : findBestSplit ((x :: xs).insertionSort gameLE) 2 with _ | idx
        · rw [labelChunks_map_snd, chunkMerge_join m hm]
          exact List.perm_insertionSort gameLE (x :: xs)
        · rcases findBestSplit_bounds _ 2 (by omega) idx hsplit with ⟨hk1, hk2⟩
          rw [List.length_insertionSort] at hk2
          simp only [List.length_cons] at hk2 hlen
          have hlt : (((x :: xs).insertionSort gameLE).take idx).length ≤ fuel := by
            simp only [List.length_take, List.length_insertionSort, List.length_cons]
            omega
          have hld : (((x :: xs).insertionSort gameLE).drop idx).length ≤ fuel := by
            simp only [List.length_drop, List.length_insertionSort, List.length_cons]
            omega
          have ht := ih none _ hlt
          have hd := ih none _ hld
          have hjoin : ((processGroupFuel m vlen none fuel
                  (((x :: xs).insertionSort gameLE).take idx) ++
                processGroupFuel m vlen none fuel
                  (((x :: xs).insertionSort gameLE).drop idx)).map Prod.snd).flatten
              = ((processGroupFuel m vlen none fuel
                    (((x :: xs).insertionSort gameLE).take idx)).map Prod.snd).flatten ++
                ((processGroupFuel m vlen none fuel
                    (((x :: xs).insertionSort gameLE).drop idx)).map Prod.snd).flatten := by
            simp [List.map_append, List.flatten_append]
          rw [hjoin]
          refine (List.Perm.append ht hd).trans ?_
          rw [List.take_append_drop]
          exact List.perm_insertionSort gameLE (x :: xs)

/-! ## Claim C4: the ceiling is respected up to the dangling merge -/

/-- C4: every group returned by `split_games` has size at most
`max_per_poll`, except for the groups produced by merging a dangling
size-1 chunk into its predecessor (straight-chunking fallback and the
unrated chunking), which have size exactly `max_per_poll + 1`.  Those
merge points are the only way the ceiling is exceeded. -/
theorem split_games_ceiling (games : List Game) (m : Nat) (hm : 1 ≤ m) :
    ∀ p ∈ split_games games m, p.2.length ≤ m ∨ p.2.length = m + 1 := by
  intro p hp
  have hb : p.2.length ≤ m + 1 := by
    simp only [split_games] at hp
    by_cases h0 : games.isEmpty
    · simp [h0] at hp
    · simp only [h0, Bool.false_eq_true, if_false] at hp
      by_cases h1 : (validOf games).isEmpty
      · simp [h1] at hp
      · simp only [h1, Bool.false_eq_true, if_false] at hp
        rcases List.mem_append.1 hp with hr | hu
        · by_cases h2 : (ratedOf games).isEmpty
          · simp [h2] at hr
          · simp only [h2, Bool.false_eq_true, if_false] at hr
            exact processGroupFuel_maxLen m (validOf games).length hm _ none _ p hr
        · by_cases h3 : (unratedOf games).isEmpty
          · simp [h3] at hu
          · simp only [h3, Bool.false_eq_true, if_false] at hu
            exact chunkMerge_maxLen m hm _ p.2 (labelChunks_mem _ 0 _ p hu)
  omega

/-- C4 witness: a concrete run of `split_games` on which the ceiling
theorem is instantiated. -/
theorem split_games_ceiling_witness :
    1 ≤ 10 ∧
      ((("Games", [(⟨1, "a", 1, 4, 2⟩ : Game), ⟨2, "b", 1, 4, 11/5⟩]) :
          String × List Game).2.length ≤ 10 ∨
        (("Games", [(⟨1, "a", 1, 4, 2⟩ : Game), ⟨2, "b", 1, 4, 11/5⟩]) :
          String × List Game).2.length = 10 + 1) :=
  ⟨by decide,
    split_games_ceiling [⟨1, "a", 1, 4, 2⟩, ⟨2, "b", 1, 4, 11/5⟩] 10 (by decide)
      ("Games", [⟨1, "a", 1, 4, 2⟩, ⟨2, "b", 1, 4, 11/5⟩]) (by decide)⟩

/-! ## Claim C1: no isolated single game (corrected) -/

/-- C1 counterexample: on four games — one rated, three unrated — the
code returns the rated game as a singleton group (and the input has
four games, so the claim's whole-input escape clause does not apply,
under either its input-wide or its per-pool reading). -/
theorem split_games_singleton_counterexample :
    ¬ (∀ p ∈ split_games
        [(⟨1, "A", 1, 4, 2⟩ : Game), ⟨2, "B", 1, 4, 0⟩, ⟨3, "C", 1, 4, 0⟩,
          ⟨4, "D", 1, 4, 0⟩] 10,
        2 ≤ p.2.length) := by
  decide

/-- C1 (amended): for `max_per_poll ≥ 2`, every group returned by
`split_games` has at least two games, or it is the entire rated pool
(resp. the entire unrated pool) and that pool contains exactly one
game.  In particular a singleton group can only be a singleton pool;
the pools are never mixed, so a lone rated game stays alone even when
unrated games exist. -/
theorem split_games_no_singleton (games : List Game) (m : Nat) (hm : 2 ≤ m) :
    ∀ p ∈ split_games games m,
      2 ≤ p.2.length ∨
        (p.2 = ratedOf games ∧ (ratedOf games).length = 1) ∨
        (p.2 = unratedOf games ∧ (unratedOf games).length = 1) := by
  intro p hp
  simp only [split_games] at hp
  by_cases h0 : games.isEmpty
  · simp [h0] at hp
  · simp only [h0, Bool.false_eq_true, if_false] at hp
    by_cases h1 : (validOf games).isEmpty
    · simp [h1] at hp
    · simp only [h1, Bool.false_eq_true, if_false] at hp
      rcases List.mem_append.1 hp with hr | hu
      · by_cases h2 : (ratedOf games).isEmpty
        · simp [h2] at hr
        · simp only [h2, Bool.false_eq_true, if_false] at hr
          rcases processGroupFuel_minLen m (validOf games).length hm _ none _ p hr with
            h2l | ⟨hlen1, heq⟩
          · exact Or.inl h2l
          · exact Or.inr (Or.inl ⟨heq, hlen1⟩)
      · by_cases h3 : (unratedOf games).isEmpty
        · simp [h3] at hu
        · simp only [h3, Bool.false_eq_true, if_false] at hu
          have hmem := labelChunks_mem _ 0 _ p hu
          rcases chunkMerge_minLen m hm _ p.2 hmem with h2l | heq
          · exact Or.inl h2l
          · have hlen : p.2.length = (unratedOf games).length := by
              rw [heq, List.length_insertionSort]
            by_cases hbig : 2 ≤ (unratedOf games).length
            · exact Or.inl (by omega)
            · right; right
              have hpos : (unratedOf games) ≠ [] := by
                intro hnil
                rw [hnil] at h3
                simp at h3
              have h1' : (unratedOf games).length = 1 := by
                have := List.length_pos.2 hpos
                omega
              rcases List.length_eq_one.1 h1' with ⟨u, hu'⟩
              refine ⟨?_, h1'⟩
              rw [heq, hu', insertionSort_singleton]
  

/-- C1 witness: the amended no-singleton theorem instantiated on a
concrete two-game run. -/
theorem split_games_no_singleton_witness :
    2 ≤ 10 ∧
      (2 ≤ (("Games", [(⟨1, "a", 1, 4, 2⟩ : Game), ⟨2, "b", 1, 4, 11/5⟩]) :
          String × List Game).2.length ∨
        ((("Games", [(⟨1, "a", 1, 4, 2⟩ : Game), ⟨2, "b", 1, 4, 11/5⟩]) :
            String × List Game).2 =
            ratedOf [⟨1, "a", 1, 4, 2⟩, ⟨2, "b", 1, 4, 11/5⟩] ∧
          (ratedOf [(⟨1, "a", 1, 4, 2⟩ : Game), ⟨2, "b", 1, 4, 11/5⟩]).length = 1) ∨
        ((("Games", [(⟨1, "a", 1, 4, 2⟩ : Game), ⟨2, "b", 1, 4, 11/5⟩]) :
            String × List Game).2 =
            unratedOf [⟨1, "a", 1, 4, 2⟩, ⟨2, "b", 1, 4, 11/5⟩] ∧
          (unratedOf [(⟨1, "a", 1, 4, 2⟩ : Game), ⟨2, "b", 1, 4, 11/5⟩]).length = 1)) :=
  ⟨by decide,
    split_games_no_singleton [⟨1, "a", 1, 4, 2⟩, ⟨2, "b", 1, 4, 11/5⟩] 10 (by decide)
      ("Games", [⟨1, "a", 1, 4, 2⟩, ⟨2, "b", 1, 4, 11/5⟩]) (by decide)⟩

/-! ## Claim C5: splitter completeness (corrected) -/

/-- C5 counterexample: a game whose name is the empty string is
filtered out (`if g.name`), so it is lost: the union of the returned
groups is empty while the input is not. -/
theorem split_games_union_counterexample :
    ¬ ((split_games [(⟨1, "", 1, 4, 2⟩ : Game)] 10).map Prod.snd).flatten.Perm
        [(⟨1, "", 1, 4, 2⟩ : Game)] := by
  decide

/-- C5 (amended): for `max_per_poll ≥ 1`, the concatenation of all
returned groups is a permutation of the input games that have a
non-empty name — no such game is duplicated or lost; games with an
empty (falsy) name are dropped by the validity filter. -/
theorem split_games_union (games : List Game) (m : Nat) (hm : 1 ≤ m) :
    ((split_games games m).map Prod.snd).flatten.Perm (validOf games) := by
  simp only [split_games]
  by_cases h0 : games.isEmpty
  · have : games = [] := List.isEmpty_iff.1 h0
    simp [h0, this, validOf]
  · simp only [h0, Bool.false_eq_true, if_false]
    by_cases h1 : (validOf games).isEmpty
    · have : validOf games = [] := List.isEmpty_iff.1 h1
      simp [h1, this]
    · simp only [h1, Bool.false_eq_true, if_false]
      rw [List.map_append, List.flatten_append]
      have hrated : (((if (ratedOf games).isEmpty then []
          else processGroupFuel m (validOf games).length none (ratedOf games).length
            (ratedOf games)).map Prod.snd).flatten).Perm (ratedOf games) := by
        by_cases h2 : (ratedOf games).isEmpty
        · have : ratedOf games = [] := List.isEmpty_iff.1 h2
          simp [h2, this]
        · simp only [h2, Bool.false_eq_true, if_false]
          exact processGroupFuel_flatten m (validOf games).length hm _ none _ le_rfl
      have hunrated : (((if (unratedOf games).isEmpty then []
          else labelChunks
            (unratedLabel (mergeDangling
              (chunkList m ((unratedOf games).insertionSort nameLE))).length) 0
            (mergeDangling (chunkList m ((unratedOf games).insertionSort nameLE)))).map
              Prod.snd).flatten).Perm (unratedOf games) := by
        by_cases h3 : (unratedOf games).isEmpty
        · have : unratedOf games = [] := List.isEmpty_iff.1 h3
          simp [h3, this]
        · simp only [h3, Bool.false_eq_true, if_false]
          rw [labelChunks_map_snd, chunkMerge_join m hm]
          exact List.perm_insertionSort nameLE (unratedOf games)
      refine (List.Perm.append hrated hunrated).trans ?_
      have hsplitfilter : unratedOf games =
          (validOf games).filter (fun g => !(decide (0 < complexityOr0 g))) := by
        unfold unratedOf
        apply List.filter_congr
        intro g _
        by_cases h : 0 < complexityOr0 g
        · simp [h, not_le.2 h]
        · simp [h, not_lt.1 h]
      rw [hsplitfilter]
      exact List.filter_append_perm _ (validOf games)

/-- C5 witness: the completeness theorem instantiated on a concrete
mixed rated/unrated input. -/
theorem split_games_union_witness :
    1 ≤ 10 ∧
      ((split_games [(⟨1, "a", 1, 4, 2⟩ : Game), ⟨2, "u", 1, 4, 0⟩] 10).map
          Prod.snd).flatten.Perm
        (validOf [(⟨1, "a", 1, 4, 2⟩ : Game), ⟨2, "u", 1, 4, 0⟩]) :=
  ⟨by decide, split_games_union [⟨1, "a", 1, 4, 2⟩, ⟨2, "u", 1, 4, 0⟩] 10 (by decide)⟩

/-! ## Claim C7: the AUTO vote-limit formula -/

theorem log2Fuel_spec :
    ∀ (f n : Nat), 1 ≤ n → n ≤ f →
      2 ^ log2Fuel f n ≤ n ∧ n < 2 ^ (log2Fuel f n + 1) := by
  intro f
  induction f with
  | zero => intro n h1 h2; omega
  | succ f ih =>
    intro n h1 h2
    by_cases hn : n ≤ 1
    · have : n = 1 := by omega
      subst this
      simp [log2Fuel]
    · simp only [log2Fuel, if_neg hn]
      have hrec := ih (n / 2) (by omega) (by omega)
      rcases hrec with ⟨hlo, hhi⟩
      rw [pow_succ] at hhi ⊢
      rw [pow_succ]
      constructor
      · omega
      · omega

theorem ceilLog2_least (n : Nat) (h1 : 1 ≤ n) :
    n ≤ 2 ^ ceilLog2 n ∧ ∀ k : Nat, n ≤ 2 ^ k → ceilLog2 n ≤ k := by
  by_cases hn : n ≤ 1
  · have : n = 1 := by omega
    subst this
    simp [ceilLog2]
  · simp only [ceilLog2, if_neg hn]
    have hspec := log2Fuel_spec (n - 1) (n - 1) (by omega) le_rfl
    rcases hspec with ⟨hlo, hhi⟩
    constructor
    · unfold floorLog2
      omega
    · intro k hk
      by_contra hlt
      push_neg at hlt
      have hk' : k ≤ log2Fuel (n - 1) (n - 1) := by unfold floorLog2 at hlt; omega
      have : (2 : Nat) ^ k ≤ 2 ^ log2Fuel (n - 1) (n - 1) :=
        Nat.pow_le_pow_right (by omega) hk'
      unfold floorLog2 at *
      omega

/-- C7: `calculate_auto_vote_limit` computes
`max(3, ceil(log2(game_count)))`: the returned value is `max 3 k` where
`k` is the least exponent with `game_count ≤ 2 ^ k`, and on the counts
1, 8, 9, 16, 17, 32, 33 it returns 3, 3, 4, 4, 5, 5, 6.  (The source
computes the logarithm on IEEE doubles, which matches the exact
`⌈log₂⌉` for every count below astronomically large collection sizes.) -/
theorem auto_vote_limit_spec :
    (calculate_auto_vote_limit 1 = 3 ∧ calculate_auto_vote_limit 8 = 3 ∧
      calculate_auto_vote_limit 9 = 4 ∧ calculate_auto_vote_limit 16 = 4 ∧
      calculate_auto_vote_limit 17 = 5 ∧ calculate_auto_vote_limit 32 = 5 ∧
      calculate_auto_vote_limit 33 = 6) ∧
    ∀ n : Int, 1 ≤ n →
      ((n ≤ 2 ^ ceilLog2 n.toNat ∧ ∀ j : Nat, n ≤ 2 ^ j → ceilLog2 n.toNat ≤ j) ∧
        calculate_auto_vote_limit n = max 3 ((ceilLog2 n.toNat : Nat) : Int)) := by
  constructor
  · exact ⟨by decide, by decide, by decide, by decide, by decide, by decide, by decide⟩
  · intro n hn
    have hnat : 1 ≤ n.toNat := by omega
    rcases ceilLog2_least n.toNat hnat with ⟨hle, hleast⟩
    refine ⟨⟨?_, ?_⟩, ?_⟩
    · have : (n.toNat : Int) ≤ ((2 ^ ceilLog2 n.toNat : Nat) : Int) := by
        exact_mod_cast hle
      push_cast at this
      omega
    · intro j hj
      refine hleast j ?_
      have : (n.toNat : Int) ≤ ((2 ^ j : Nat) : Int) := by
        push_cast
        omega
      exact_mod_cast this
    · unfold calculate_auto_vote_limit
      rw [if_neg (by omega)]

/-- C7 witness: the AUTO-limit theorem instantiated at a count of 5
(limit `max 3 3 = 3`). -/
theorem auto_vote_limit_spec_witness :
    1 ≤ (5 : Int) ∧ (5 : Int) ≤ 2 ^ ceilLog2 (5 : Int).toNat ∧
      calculate_auto_vote_limit 5 = max 3 ((ceilLog2 (5 : Int).toNat : Nat) : Int) :=
  ⟨by decide, (auto_vote_limit_spec.2 5 (by decide)).1.1,
    (auto_vote_limit_spec.2 5 (by decide)).2⟩

/-! ## Claim C8: vote toggling is an involution, removals bypass the limit -/

/-- C8: starting from a state with no `(poll, player, game)` row and a
passing limit check, casting the vote adds exactly one row; casting it
again removes it, restoring the original state exactly (so a third cast
re-runs the first case and reinstates it).  Moreover a removal is
accepted unconditionally — for any session row and any candidate count —
on both the concrete-game path and the category-vote path: the limit
check only guards the insert branch. -/
theorem vote_toggle_involution
    (sessionOpt : Option SessionRec) (validCount : Int) (votes : List PollVoteRec)
    (pollId : String) (userId : Int) (gameId : Int) (userName : String)
    (habs : ∀ v ∈ votes, ¬ matchesVote pollId userId (some gameId) v)
    (hallow : limitAllows sessionOpt validCount votes pollId userId) :
    toggleVote sessionOpt validCount votes pollId userId gameId userName =
        (votes ++ [⟨pollId, userId, some gameId, userName⟩], .recorded) ∧
      toggleVote sessionOpt validCount
          (votes ++ [⟨pollId, userId, some gameId, userName⟩])
          pollId userId gameId userName = (votes, .removed) ∧
      (∀ (s2 : Option SessionRec) (c2 : Int) (votes2 : List PollVoteRec),
        (∃ v ∈ votes2, matchesVote pollId userId (some gameId) v) →
        toggleVote s2 c2 votes2 pollId userId gameId userName =
          (votes2.filter (fun v => ¬ matchesVote pollId userId (some gameId) v),
            .removed)) ∧
      (∀ (s2 : Option SessionRec) (validGames2 : List Game)
          (votes2 : List PollVoteRec) (level : Int),
        (group_games_by_complexity validGames2 level).isEmpty = false →
        (∃ v ∈ votes2, matchesVote pollId userId (some (-level)) v) →
        toggleCategoryVote s2 validGames2 votes2 pollId userId level userName =
          (votes2.filter (fun v => ¬ matchesVote pollId userId (some (-level)) v),
            .removed)) := by
  have hfilnil : votes.filter
      (fun v => decide (matchesVote pollId userId (some gameId) v)) = [] := by
    rw [List.filter_eq_nil_iff]
    intro v hv
    simpa using habs v hv
  have hv : matchesVote pollId userId (some gameId)
      (⟨pollId, userId, some gameId, userName⟩ : PollVoteRec) := ⟨rfl, rfl, rfl⟩
  refine ⟨?_, ?_, ?_, ?_⟩
  · simp only [toggleVote, hfilnil, List.isEmpty_nil, not_true, Bool.false_eq_true,
      if_false]
    cases sessionOpt with
    | none => simp
    | some s =>
      cases hl : effectiveLimit s.vote_limit validCount with
      | none => simp [hl]
      | some lim =>
        simp only [limitAllows, hl] at hallow
        simp only [hl]
        rw [if_neg (by omega)]
  · have hexist : (votes ++ [(⟨pollId, userId, some gameId, userName⟩ : PollVoteRec)]).filter
        (fun v => decide (matchesVote pollId userId (some gameId) v)) =
        [⟨pollId, userId, some gameId, userName⟩] := by
      rw [List.filter_append, hfilnil]
      simp [hv]
    have hback1 : votes.filter
        (fun v => !decide (matchesVote pollId userId (some gameId) v)) = votes := by
      rw [List.filter_eq_self]
      intro v hvmem
      simp [habs v hvmem]
    simp [toggleVote, hexist, List.filter_append, hback1, hv]
  · intro s2 c2 votes2 hex
    have : votes2.filter
        (fun v => decide (matchesVote pollId userId (some gameId) v)) ≠ [] := by
      rw [Ne, List.filter_eq_nil_iff]
      push_neg
      rcases hex with ⟨v, hvmem, hvm⟩
      exact ⟨v, hvmem, by simpa using hvm⟩
    simp only [toggleVote]
    rw [if_pos (by simpa [List.isEmpty_iff] using this)]
  · intro s2 validGames2 votes2 level hgrp hex
    have : votes2.filter
        (fun v => decide (matchesVote pollId userId (some (-level)) v)) ≠ [] := by
      rw [Ne, List.filter_eq_nil_iff]
      push_neg
      rcases hex with ⟨v, hvmem, hvm⟩
      exact ⟨v, hvmem, by simpa using hvm⟩
    simp only [toggleCategoryVote, hgrp, Bool.false_eq_true, if_false]
    rw [if_pos (by simpa [List.isEmpty_iff] using this)]

/-- C8 witness: one concrete toggle cycle on an empty vote table with
an `UNLIMITED` session. -/
theorem vote_toggle_involution_witness :
    toggleVote (some ⟨true, false, 0, some 1, false, 0⟩) 5 [] "p" 7 42 "u" =
        ([⟨"p", 7, some 42, "u"⟩], .recorded) ∧
      toggleVote (some ⟨true, false, 0, some 1, false, 0⟩) 5
          [⟨"p", 7, some 42, "u"⟩] "p" 7 42 "u" = ([], .removed) := by
  have h := vote_toggle_involution (some ⟨true, false, 0, some 1, false, 0⟩) 5 []
    "p" 7 42 "u" (by intro v hv; simp at hv)
    (by simp [limitAllows, effectiveLimit, VoteLimit.AUTO, VoteLimit.UNLIMITED])
  exact ⟨h.1, by simpa using h.2.1⟩

/-! ## Claim C9: stale lobby messages cause no mutation -/

/-- C9: when the recorded session message id is set (non-null, non-zero)
and differs from the inbound message id, each embedded lobby handler —
join, leave, settings-change, start-poll — answers with the expired
notice and returns the database unchanged. -/
theorem stale_message_no_mutation (db : DB) (chatId messageId userId : Int)
    (userName : String) (customIds : String × Int) (nativeIds : Nat → String × Int)
    (hstale : sessionExpired db.sessionRow messageId = true) :
    join_lobby db messageId userId userName = (db, .expired) ∧
      leave_lobby db messageId userId = (db, .expired) ∧
      toggle_weights db messageId = (db, .expired) ∧
      start_poll db chatId messageId customIds nativeIds = (db, .expired) := by
  refine ⟨?_, ?_, ?_, ?_⟩
  · simp [join_lobby, hstale]
  · simp [leave_lobby, hstale]
  · rcases hrow : db.sessionRow with _ | s
    · rw [hrow] at hstale
      simp [sessionExpired] at hstale
    · rw [hrow] at hstale
      simp [toggle_weights, hrow, hstale]
  · simp [start_poll, hstale]

/-- C9 witness: a stale message id (7, recorded 5) rejected by all four
handlers on a concrete database. -/
theorem stale_message_no_mutation_witness :
    join_lobby ⟨some ⟨true, true, 0, some 5, false, 0⟩, [], [], [], [], [], []⟩
        7 11 "u" =
        (⟨some ⟨true, true, 0, some 5, false, 0⟩, [], [], [], [], [], []⟩, .expired) ∧
      leave_lobby ⟨some ⟨true, true, 0, some 5, false, 0⟩, [], [], [], [], [], []⟩ 7 11 =
        (⟨some ⟨true, true, 0, some 5, false, 0⟩, [], [], [], [], [], []⟩, .expired) ∧
      toggle_weights ⟨some ⟨true, true, 0, some 5, false, 0⟩, [], [], [], [], [], []⟩ 7 =
        (⟨some ⟨true, true, 0, some 5, false, 0⟩, [], [], [], [], [], []⟩, .expired) ∧
      start_poll ⟨some ⟨true, true, 0, some 5, false, 0⟩, [], [], [], [], [], []⟩ 1 7
          ("c", 9) (fun k => ("n", (k : Int))) =
        (⟨some ⟨true, true, 0, some 5, false, 0⟩, [], [], [], [], [], []⟩, .expired) :=
  stale_message_no_mutation ⟨some ⟨true, true, 0, some 5, false, 0⟩, [], [], [], [], [], []⟩
    1 7 11 "u" ("c", 9) (fun k => ("n", (k : Int))) (by decide)

/-! ## Lemmas about the score dictionary -/

theorem lookup_append_of_none {κ β : Type} [BEq κ] (k : κ) (d1 d2 : List (κ × β))
    (h : d1.lookup k = none) : (d1 ++ d2).lookup k = d2.lookup k := by
  induction d1 with
  | nil => simp
  | cons p rest ih =>
    rcases p with ⟨p1, p2⟩
    rcases hb : (k == p1) with _ | _
    · simp only [List.lookup_cons, hb] at h
      rw [List.cons_append]
      simp only [List.lookup_cons, hb]
      exact ih h
    · simp only [List.lookup_cons, hb] at h
      exact Option.noConfusion h

theorem lookup_append_of_some {κ β : Type} [BEq κ] (k : κ) (d1 d2 : List (κ × β))
    (v : β) (h : d1.lookup k = some v) : (d1 ++ d2).lookup k = some v := by
  induction d1 with
  | nil => simp at h
  | cons p rest ih =>
    rcases p with ⟨p1, p2⟩
    rw [List.cons_append]
    rcases hb : (k == p1) with _ | _
    · simp only [List.lookup_cons, hb] at h ⊢
      exact ih h
    · simp only [List.lookup_cons, hb] at h ⊢
      exact h

theorem lookup_map_overwrite_self (d : List (String × ℚ)) (k : String) (v : ℚ)
    (hs : (d.lookup k).isSome) :
    (d.map (fun p => if p.1 = k then (k, v) else p)).lookup k = some v := by
  induction d with
  | nil => simp at hs
  | cons p rest ih =>
    rcases p with ⟨p1, p2⟩
    rw [List.map_cons]
    dsimp only
    by_cases hp : p1 = k
    · rw [if_pos hp]
      simp
    · have hb : (k == p1) = false := by
        simp only [beq_eq_false_iff_ne]
        exact fun h => hp h.symm
      rw [if_neg hp]
      simp only [List.lookup_cons, hb]
      refine ih ?_
      simp only [List.lookup_cons, hb] at hs
      exact hs

theorem lookup_map_overwrite_other (d : List (String × ℚ)) (k k' : String) (v : ℚ)
    (hne : k' ≠ k) :
    (d.map (fun p => if p.1 = k then (k, v) else p)).lookup k' = d.lookup k' := by
  induction d with
  | nil => rfl
  | cons p rest ih =>
    rcases p with ⟨p1, p2⟩
    rw [List.map_cons]
    dsimp only
    by_cases hp : p1 = k
    · have hb : (k' == k) = false := by simp only [beq_eq_false_iff_ne]; exact hne
      have hb2 : (k' == p1) = false := by rw [hp]; exact hb
      rw [if_pos hp]
      simp only [List.lookup_cons, hb, hb2]
      exact ih
    · rw [if_neg hp]
      rcases hb : (k' == p1) with _ | _
      · simp only [List.lookup_cons, hb]
        exact ih
      · simp only [List.lookup_cons, hb]

theorem dictInsert_lookup_self (d : List (String × ℚ)) (k : String) (v : ℚ) :
    (dictInsert d k v).lookup k = some v := by
  unfold dictInsert
  by_cases hs : (d.lookup k).isSome
  · rw [if_pos hs]
    exact lookup_map_overwrite_self d k v hs
  · rw [if_neg hs]
    rw [lookup_append_of_none k d _ (Option.not_isSome_iff_eq_none.1 hs)]
    simp

theorem dictInsert_lookup_other (d : List (String × ℚ)) (k k' : String) (v : ℚ)
    (hne : k' ≠ k) : (dictInsert d k v).lookup k' = d.lookup k' := by
  unfold dictInsert
  by_cases hs : (d.lookup k).isSome
  · rw [if_pos hs]
    exact lookup_map_overwrite_other d k k' v hne
  · rw [if_neg hs]
    rcases hd : d.lookup k' with _ | w
    · rw [lookup_append_of_none k' d _ hd]
      have hb : (k' == k) = false := by simp only [beq_eq_false_iff_ne]; exact hne
      simp only [List.lookup_cons, hb, List.lookup_nil]
    · exact lookup_append_of_some k' d _ w hd

theorem cpwStep_fst (votes : List RVote) (pids : List Int) (w : Bool)
    (sc : Option (List (Int × List Int)))
    (acc : List (String × ℚ) × List String) (game : Game) :
    (cpwStep votes pids w sc acc game).1 =
      dictInsert acc.1 game.name (cpwValue votes pids w sc game) := by
  simp only [cpwStep, cpwValue, apply_ite Prod.fst]

theorem cpw_foldl_lookup_notmem (votes : List RVote) (pids : List Int) (w : Bool)
    (sc : Option (List (Int × List Int))) :
    ∀ (games : List Game) (acc : List (String × ℚ) × List String) (name : String),
      (∀ g ∈ games, g.name ≠ name) →
      ((games.foldl (cpwStep votes pids w sc) acc).1).lookup name =
        acc.1.lookup name := by
  intro games
  induction games with
  | nil => intro acc name _; rfl
  | cons game rest ih =>
    intro acc name hne
    rw [List.foldl_cons]
    rw [ih _ name (fun g hg => hne g (List.mem_cons_of_mem _ hg))]
    rw [cpwStep_fst]
    exact dictInsert_lookup_other _ _ _ _
      (fun h => hne game (List.mem_cons_self _ _) h.symm)

theorem cpw_foldl_lookup_mem (votes : List RVote) (pids : List Int) (w : Bool)
    (sc : Option (List (Int × List Int))) :
    ∀ (games : List Game) (acc : List (String × ℚ) × List String) (g : Game),
      g ∈ games → games.Pairwise (fun a b => a.name ≠ b.name) →
      ((games.foldl (cpwStep votes pids w sc) acc).1).lookup g.name =
        some (cpwValue votes pids w sc g) := by
  intro games
  induction games with
  | nil => intro acc g hg _; simp at hg
  | cons game rest ih =>
    intro acc g hg hpair
    rw [List.foldl_cons]
    rcases List.mem_cons.1 hg with rfl | hgrest
    · rw [cpw_foldl_lookup_notmem votes pids w sc rest _ g.name
        (fun r hr => ((List.pairwise_cons.1 hpair).1 r hr).symm)]
      rw [cpwStep_fst]
      exact dictInsert_lookup_self _ _ _
    · exact ih _ g hgrest (List.pairwise_cons.1 hpair).2

/-! ## Claim C3: full-mode star boost is per qualifying voter -/

/-- C3: in `calculate_poll_winner` with weighting on, a starred game's
final score is its base vote count `B` plus `N × 0.5`, where `N` counts
the voters who both voted for the game and personally starred it (the
intersection of the game's starred-by set with its voter-id set) —
per-voter, not a flat `0.5`.  Holds for any star-collections value,
including absent or empty ones (then `N = 0`). -/
theorem star_boost_per_voter (games : List Game) (votes : List RVote)
    (priority_game_ids : List Int) (sc : Option (List (Int × List Int))) (g : Game)
    (hmem : g ∈ games) (hnames : games.Pairwise (fun a b => a.name ≠ b.name))
    (hpri : g.id ∈ priority_game_ids) :
    (calculate_poll_winner games votes priority_game_ids true sc).2.1.lookup g.name =
      some (((votes.filter (fun v => v.game_id = some g.id)).length : ℚ) +
        (((((sc.getD []).lookup g.id).getD []).toFinset ∩
            ((votes.filter (fun v => v.game_id = some g.id)).map
              (fun v => v.user_id)).toFinset).card : ℚ) * STAR_BOOST) := by
  have hlk : (calculate_poll_winner games votes priority_game_ids true sc).2.1 =
      (games.foldl (cpwStep votes priority_game_ids true sc) ([], [])).1 := rfl
  rw [hlk, cpw_foldl_lookup_mem votes priority_game_ids true sc games ([], []) g
    hmem hnames]
  congr 1
  unfold cpwValue
  by_cases hsc : scTruthy sc = true
  · rw [if_pos ⟨rfl, hpri, hsc⟩]
    by_cases hn : 0 < ((((sc.getD []).lookup g.id).getD []).toFinset ∩
        ((votes.filter (fun v => v.game_id = some g.id)).map
          (fun v => v.user_id)).toFinset).card
    · rw [if_pos hn]
    · rw [if_neg hn]
      have h0 : ((((sc.getD []).lookup g.id).getD []).toFinset ∩
          ((votes.filter (fun v => v.game_id = some g.id)).map
            (fun v => v.user_id)).toFinset).card = 0 := by omega
      rw [h0]
      push_cast
      ring
  · rw [if_neg (fun hcond => hsc hcond.2.2)]
    have hempty : ((sc.getD []).lookup g.id).getD [] = [] := by
      rcases sc with _ | l
      · rfl
      · have : l = [] := by
          simp only [scTruthy] at hsc
          simpa using hsc
        subst this
        rfl
    rw [hempty]
    simp

/-- C3 witness: one game, one voter who voted for it and starred it:
score `1 + 1 × 0.5`. -/
theorem star_boost_per_voter_witness :
    (calculate_poll_winner [(⟨1, "G", 1, 4, 2⟩ : Game)] [⟨some 1, 7⟩] [1] true
        (some [(1, [7])])).2.1.lookup "G" =
      some ((([(⟨some 1, 7⟩ : RVote)].filter
          (fun v => v.game_id = some (1 : Int))).length : ℚ) +
        (((((some [((1 : Int), [(7 : Int)])]).getD []).lookup (1 : Int)).getD
              []).toFinset ∩
          (([(⟨some 1, 7⟩ : RVote)].filter
            (fun v => v.game_id = some (1 : Int))).map
              (fun v => v.user_id)).toFinset).card * STAR_BOOST) :=
  star_boost_per_voter [⟨1, "G", 1, 4, 2⟩] [⟨some 1, 7⟩] [1] (some [(1, [7])])
    ⟨1, "G", 1, 4, 2⟩ (by decide) (by decide) (by decide)

/-! ## Claim C6: simple-mode star boost (corrected) -/

theorem cws_foldl_lookup_notmem (w : Bool) (pids : List Int)
    (colls : List CollectionRec) (games : List Game) :
    ∀ (options : List PollOptionRec) (acc : List (String × ℚ) × List String)
      (name : String), (∀ o ∈ options, cleanedName o.text ≠ name) →
      ((options.foldl (fun acc option => (dictInsert acc.1 (cleanedName option.text)
          (cwsValue w pids colls games option), acc.2)) acc).1).lookup name =
        acc.1.lookup name := by
  intro options
  induction options with
  | nil => intro acc name _; rfl
  | cons o rest ih =>
    intro acc name hne
    rw [List.foldl_cons]
    rw [ih _ name (fun x hx => hne x (List.mem_cons_of_mem _ hx))]
    exact dictInsert_lookup_other _ _ _ _
      (fun h => hne o (List.mem_cons_self _ _) h.symm)

theorem cws_foldl_lookup_mem (w : Bool) (pids : List Int)
    (colls : List CollectionRec) (games : List Game) :
    ∀ (options : List PollOptionRec) (acc : List (String × ℚ) × List String)
      (o : PollOptionRec), o ∈ options →
      options.Pairwise (fun a b => cleanedName a.text ≠ cleanedName b.text) →
      ((options.foldl (fun acc option => (dictInsert acc.1 (cleanedName option.text)
          (cwsValue w pids colls games option), acc.2)) acc).1).lookup
          (cleanedName o.text) =
        some (cwsValue w pids colls games o) := by
  intro options
  induction options with
  | nil => intro acc o ho _; simp at ho
  | cons o2 rest ih =>
    intro acc o ho hpair
    rw [List.foldl_cons]
    rcases List.mem_cons.1 ho with rfl | horest
    · rw [cws_foldl_lookup_notmem w pids colls games rest _ (cleanedName o.text)
        (fun r hr => ((List.pairwise_cons.1 hpair).1 r hr).symm)]
      exact dictInsert_lookup_self _ _ _
    · exact ih _ o horest (List.pairwise_cons.1 hpair).2

/-- C6 counterexample: in simple mode a starred game receives the boost
even when its voter count is zero — no voter voted for it, so no voter
both voted for it and starred it, yet its score is `0.5`, not the `0.0`
the claim's per-(voter-who-voted-and-starred) rule would give. -/
theorem simple_mode_counterexample :
    (calculate_winner_scores true [7] [⟨7, 1, GameState.STARRED, none⟩]
        [⟨1, "G", 1, 4, 2⟩] [⟨"⭐ G", 0⟩]).1.lookup "G" = some (1/2) ∧
      (1/2 : ℚ) ≠ 0 := by
  exact ⟨by decide, by decide⟩

/-- C6 (amended): in simple mode with weighting on, a starred option's
score is its external voter count plus `0.5` for every *session player*
whose collection stars the matched game — regardless of whether that
player voted for it (native polls do not expose voter identities to
this resolver). -/
theorem simple_mode_star_boost (playerIds : List Int) (colls : List CollectionRec)
    (games : List Game) (options : List PollOptionRec) (o : PollOptionRec)
    (game : Game) (hmem : o ∈ options)
    (hnames : options.Pairwise (fun a b => cleanedName a.text ≠ cleanedName b.text))
    (hstar : hasStar o.text = true)
    (hfind : findGameByName games (cleanedName o.text) = some game) :
    (calculate_winner_scores true playerIds colls games options).1.lookup
        (cleanedName o.text) =
      some ((o.voter_count : ℚ) +
        ((colls.filter (fun c => c.game_id = game.id ∧ c.user_id ∈ playerIds ∧
          c.state = GameState.STARRED)).length : ℚ) * STAR_BOOST) := by
  have hlk : (calculate_winner_scores true playerIds colls games options).1 =
      (options.foldl (fun acc option => (dictInsert acc.1 (cleanedName option.text)
        (cwsValue true playerIds colls games option), acc.2))
        (([], []) : List (String × ℚ) × List String)).1 := rfl
  rw [hlk, cws_foldl_lookup_mem true playerIds colls games options ([], []) o
    hmem hnames]
  congr 1
  unfold cwsValue
  dsimp only
  rw [if_pos ⟨rfl, hstar⟩]
  simp only [hfind]
  by_cases hn : 0 < (colls.filter (fun c => c.game_id = game.id ∧
      c.user_id ∈ playerIds ∧ c.state = GameState.STARRED)).length
  · rw [if_pos hn]
  · rw [if_neg hn]
    have h0 : (colls.filter (fun c => c.game_id = game.id ∧
        c.user_id ∈ playerIds ∧ c.state = GameState.STARRED)).length = 0 := by omega
    rw [h0]
    push_cast
    ring

/-- C6 witness: one starred option with two external votes and one
session player who starred the game: score `2 + 0.5`. -/
theorem simple_mode_star_boost_witness :
    (calculate_winner_scores true [7] [⟨7, 1, GameState.STARRED, none⟩]
        [⟨1, "G", 1, 4, 2⟩] [⟨"⭐ G", 2⟩]).1.lookup (cleanedName "⭐ G") =
      some (((2 : Nat) : ℚ) +
        ((([(⟨7, 1, GameState.STARRED, none⟩ : CollectionRec)].filter
          (fun c => c.game_id = (1 : Int) ∧ c.user_id ∈ [(7 : Int)] ∧
            c.state = GameState.STARRED)).length : ℚ)) * STAR_BOOST) :=
  simple_mode_star_boost [7] [⟨7, 1, GameState.STARRED, none⟩] [⟨1, "G", 1, 4, 2⟩]
    [⟨"⭐ G", 2⟩] ⟨"⭐ G", 2⟩ ⟨1, "G", 1, 4, 2⟩ (by decide) (by decide) (by decide)
    (by decide)

/-! ## Lemmas about category-vote resolution -/

theorem bcrStep_lookup_some (choose : List Game → Game) (groups : Int → List Game)
    (res : List (Int × Game)) (v : PollVoteRec) (L : Int) (g : Game)
    (h : res.lookup L = some g) :
    (bcrStep choose groups res v).lookup L = some g := by
  unfold bcrStep
  rcases v.game_id with _ | gid
  · exact h
  · dsimp only
    by_cases hneg : gid < 0
    · rw [if_pos hneg]
      by_cases hnone : (res.lookup (-gid)).isNone
      · rw [if_pos hnone]
        by_cases hemp : (groups (-gid)).isEmpty
        · rw [if_pos hemp]; exact h
        · rw [if_neg hemp]
          exact lookup_append_of_some L res _ g h
      · rw [if_neg hnone]; exact h
    · rw [if_neg hneg]; exact h

theorem bcrStep_lookup_none (choose : List Game → Game) (groups : Int → List Game)
    (res : List (Int × Game)) (v : PollVoteRec) (L : Int)
    (h : res.lookup L = none) (hnot : v.game_id = some (-L) → (groups L).isEmpty) :
    (bcrStep choose groups res v).lookup L = none := by
  unfold bcrStep
  rcases hv : v.game_id with _ | gid
  · exact h
  · dsimp only
    by_cases hneg : gid < 0
    · rw [if_pos hneg]
      by_cases hnone : (res.lookup (-gid)).isNone
      · rw [if_pos hnone]
        by_cases hemp : (groups (-gid)).isEmpty
        · rw [if_pos hemp]; exact h
        · rw [if_neg hemp]
          have hLne : -gid ≠ L := by
            intro hEq
            have : gid = -L := by omega
            exact hemp (by rw [hEq] at *; exact hnot (by rw [hv, this]))
          rw [lookup_append_of_none L res _ h]
          have hb : (L == -gid) = false := by
            simp only [beq_eq_false_iff_ne]
            exact fun hE => hLne hE.symm
          simp only [List.lookup_cons, hb, List.lookup_nil]
      · rw [if_neg hnone]; exact h
    · rw [if_neg hneg]; exact h

theorem bcr_foldl_some (choose : List Game → Game) (groups : Int → List Game) :
    ∀ (votes : List PollVoteRec) (acc : List (Int × Game)) (L : Int) (g : Game),
      acc.lookup L = some g →
      (votes.foldl (bcrStep choose groups) acc).lookup L = some g := by
  intro votes
  induction votes with
  | nil => intro acc L g h; exact h
  | cons v rest ih =>
    intro acc L g h
    rw [List.foldl_cons]
    exact ih _ L g (bcrStep_lookup_some choose groups acc v L g h)

theorem bcr_foldl_none (choose : List Game → Game) (groups : Int → List Game)
    (L : Int) (hempty : (groups L).isEmpty) :
    ∀ (votes : List PollVoteRec) (acc : List (Int × Game)),
      acc.lookup L = none →
      (votes.foldl (bcrStep choose groups) acc).lookup L = none := by
  intro votes
  induction votes with
  | nil => intro acc h; exact h
  | cons v rest ih =>
    intro acc h
    rw [List.foldl_cons]
    exact ih _ (bcrStep_lookup_none choose groups acc v L h (fun _ => hempty))

theorem bcr_foldl_resolves (choose : List Game → Game) (groups : Int → List Game)
    (L : Int) (hL : 0 < L) (hne : ¬ (groups L).isEmpty) :
    ∀ (votes : List PollVoteRec) (acc : List (Int × Game)),
      acc.lookup L = none → (∃ v ∈ votes, v.game_id = some (-L)) →
      (votes.foldl (bcrStep choose groups) acc).lookup L =
        some (choose (groups L)) := by
  intro votes
  induction votes with
  | nil =>
    intro acc _ hex
    simp at hex
  | cons v rest ih =>
    intro acc hacc hex
    rw [List.foldl_cons]
    by_cases hv : v.game_id = some (-L)
    · have hstep : (bcrStep choose groups acc v).lookup L =
          some (choose (groups L)) := by
        unfold bcrStep
        rw [hv]
        dsimp only
        rw [if_pos (by omega), neg_neg]
        rw [if_pos (by rw [hacc]; rfl)]
        rw [if_neg hne]
        rw [lookup_append_of_none L acc _ hacc]
        simp
      exact bcr_foldl_some choose groups rest _ L _ hstep
    · have hstep : (bcrStep choose groups acc v).lookup L = none :=
        bcrStep_lookup_none choose groups acc v L hacc (fun h => absurd h hv)
      refine ih _ hstep ?_
      rcases hex with ⟨v2, hv2mem, hv2⟩
      rcases List.mem_cons.1 hv2mem with rfl | hv2rest
      · exact absurd hv2 hv
      · exact ⟨v2, hv2rest, hv2⟩

theorem resolveVotes_drop_unresolved (res : List (Int × Game)) (L : Int)
    (hL : 0 < L) (hnone : res.lookup L = none) :
    ∀ votes : List PollVoteRec,
      resolveVotes res votes =
        resolveVotes res (votes.filter (fun v => ¬ v.game_id = some (-L))) := by
  intro votes
  induction votes with
  | nil => rfl
  | cons v rest ih =>
    by_cases hv : v.game_id = some (-L)
    · have hfil : (v :: rest).filter (fun v => ¬ v.game_id = some (-L)) =
          rest.filter (fun v => ¬ v.game_id = some (-L)) := by
        rw [List.filter_cons]
        simp [hv]
      rw [hfil, ← ih]
      unfold resolveVotes
      rw [List.flatMap_cons]
      simp only [hv]
      rw [if_pos (show (-L : Int) < 0 by omega), neg_neg, hnone]
      rfl
    · have hfil : (v :: rest).filter (fun v => ¬ v.game_id = some (-L)) =
          v :: rest.filter (fun v => ¬ v.game_id = some (-L)) := by
        rw [List.filter_cons]
        simp [hv]
      rw [hfil]
      unfold resolveVotes
      rw [List.flatMap_cons, List.flatMap_cons]
      unfold resolveVotes at ih
      rw [ih]

/-! ## Claim C10: category votes on an empty group are dropped -/

/-- C10: at close time, a category vote whose complexity level has an
empty candidate group is never resolved — the level gets no entry in the
resolution map, and the resolved-votes list is the same as if those
votes had not been cast, so they contribute nothing to any game's
score. -/
theorem empty_category_vote_dropped (choose : List Game → Game)
    (groups : Int → List Game) (votes : List PollVoteRec) (L : Int)
    (hL : 0 < L) (hempty : groups L = []) :
    (buildCategoryResolutions choose groups votes).lookup L = none ∧
      resolveVotes (buildCategoryResolutions choose groups votes) votes =
        resolveVotes (buildCategoryResolutions choose groups votes)
          (votes.filter (fun v => ¬ v.game_id = some (-L))) := by
  have hnone : (buildCategoryResolutions choose groups votes).lookup L = none :=
    bcr_foldl_none choose groups L (by rw [hempty]; rfl) votes [] rfl
  exact ⟨hnone, resolveVotes_drop_unresolved _ L hL hnone votes⟩

/-- C10 witness: one category vote for level 2 whose group is empty is
dropped entirely. -/
theorem empty_category_vote_dropped_witness :
    (buildCategoryResolutions (fun l => l.headD ⟨0, "x", 1, 4, 0⟩)
        (fun _ => ([] : List Game)) [⟨"p", 1, some (-2), "u"⟩]).lookup 2 = none ∧
      resolveVotes
          (buildCategoryResolutions (fun l => l.headD ⟨0, "x", 1, 4, 0⟩)
            (fun _ => ([] : List Game)) [⟨"p", 1, some (-2), "u"⟩])
          [⟨"p", 1, some (-2), "u"⟩] =
        resolveVotes
          (buildCategoryResolutions (fun l => l.headD ⟨0, "x", 1, 4, 0⟩)
            (fun _ => ([] : List Game)) [⟨"p", 1, some (-2), "u"⟩])
          ([⟨"p", 1, some (-2), "u"⟩].filter
            (fun v => ¬ v.game_id = some (-(2 : Int)))) :=
  empty_category_vote_dropped (fun l => l.headD ⟨0, "x", 1, 4, 0⟩)
    (fun _ => []) [⟨"p", 1, some (-2), "u"⟩] 2 (by decide) rfl

/-! ## Claim C2: per-category first-vote-wins resolution -/

/-- C2: the first category vote encountered for a level triggers
exactly one draw (every resolved level maps to `choose` applied once to
that level's live candidate group, however many category votes the
level received), and every category vote for that level resolves to
that same game.  In the three-player scenario — three category votes
for level 4 whose candidate group holds the two games X and Y — all three resolve
to the same drawn game and that game's final score is `3.0`. -/
theorem category_first_vote_wins (choose : List Game → Game) :
    (∀ (groups : Int → List Game) (votes : List PollVoteRec) (L : Int), 0 < L →
        ¬ (groups L).isEmpty = true →
        (∃ v ∈ votes, v.game_id = some (-L)) →
        (buildCategoryResolutions choose groups votes).lookup L =
          some (choose (groups L))) ∧
      (choose (group_games_by_complexity [(⟨100, "X", 1, 4, 4⟩ : Game), ⟨101, "Y", 1, 4, 21/5⟩] 4) ∈ [(⟨100, "X", 1, 4, 4⟩ : Game), ⟨101, "Y", 1, 4, 21/5⟩] →
        resolveVotes (buildCategoryResolutions choose (group_games_by_complexity [(⟨100, "X", 1, 4, 4⟩ : Game), ⟨101, "Y", 1, 4, 21/5⟩]) [⟨"p", 1, some (-4), "a"⟩, ⟨"p", 2, some (-4), "b"⟩, ⟨"p", 3, some (-4), "c"⟩]) [⟨"p", 1, some (-4), "a"⟩, ⟨"p", 2, some (-4), "b"⟩, ⟨"p", 3, some (-4), "c"⟩] =
          [⟨some (choose (group_games_by_complexity [(⟨100, "X", 1, 4, 4⟩ : Game), ⟨101, "Y", 1, 4, 21/5⟩] 4)).id, 1⟩, ⟨some (choose (group_games_by_complexity [(⟨100, "X", 1, 4, 4⟩ : Game), ⟨101, "Y", 1, 4, 21/5⟩] 4)).id, 2⟩, ⟨some (choose (group_games_by_complexity [(⟨100, "X", 1, 4, 4⟩ : Game), ⟨101, "Y", 1, 4, 21/5⟩] 4)).id, 3⟩] ∧
        (calculate_poll_winner [(⟨100, "X", 1, 4, 4⟩ : Game), ⟨101, "Y", 1, 4, 21/5⟩]
            (resolveVotes (buildCategoryResolutions choose (group_games_by_complexity [(⟨100, "X", 1, 4, 4⟩ : Game), ⟨101, "Y", 1, 4, 21/5⟩]) [⟨"p", 1, some (-4), "a"⟩, ⟨"p", 2, some (-4), "b"⟩, ⟨"p", 3, some (-4), "c"⟩]) [⟨"p", 1, some (-4), "a"⟩, ⟨"p", 2, some (-4), "b"⟩, ⟨"p", 3, some (-4), "c"⟩]) [] false none).2.1.lookup
            (choose (group_games_by_complexity [(⟨100, "X", 1, 4, 4⟩ : Game), ⟨101, "Y", 1, 4, 21/5⟩] 4)).name = some 3) := by
  constructor
  · intro groups votes L hL hne hex
    exact bcr_foldl_resolves choose groups L hL hne votes [] rfl hex
  · intro hmem
    have hG : group_games_by_complexity [(⟨100, "X", 1, 4, 4⟩ : Game), ⟨101, "Y", 1, 4, 21/5⟩] 4 = [(⟨100, "X", 1, 4, 4⟩ : Game), ⟨101, "Y", 1, 4, 21/5⟩] := by decide
    have hlookup : (buildCategoryResolutions choose (group_games_by_complexity [(⟨100, "X", 1, 4, 4⟩ : Game), ⟨101, "Y", 1, 4, 21/5⟩]) [⟨"p", 1, some (-4), "a"⟩, ⟨"p", 2, some (-4), "b"⟩, ⟨"p", 3, some (-4), "c"⟩]).lookup 4 = some (choose (group_games_by_complexity [(⟨100, "X", 1, 4, 4⟩ : Game), ⟨101, "Y", 1, 4, 21/5⟩] 4)) :=
      bcr_foldl_resolves choose (group_games_by_complexity [(⟨100, "X", 1, 4, 4⟩ : Game), ⟨101, "Y", 1, 4, 21/5⟩]) 4 (by decide)
        (by rw [hG]; decide) [⟨"p", 1, some (-4), "a"⟩, ⟨"p", 2, some (-4), "b"⟩, ⟨"p", 3, some (-4), "c"⟩] [] rfl
        ⟨⟨"p", 1, some (-4), "a"⟩, List.mem_cons_self _ _, rfl⟩
    have hm4 : -(-4 : Int) = 4 := by decide
    have hres : resolveVotes (buildCategoryResolutions choose (group_games_by_complexity [(⟨100, "X", 1, 4, 4⟩ : Game), ⟨101, "Y", 1, 4, 21/5⟩]) [⟨"p", 1, some (-4), "a"⟩, ⟨"p", 2, some (-4), "b"⟩, ⟨"p", 3, some (-4), "c"⟩]) [⟨"p", 1, some (-4), "a"⟩, ⟨"p", 2, some (-4), "b"⟩, ⟨"p", 3, some (-4), "c"⟩] =
        [⟨some (choose (group_games_by_complexity [(⟨100, "X", 1, 4, 4⟩ : Game), ⟨101, "Y", 1, 4, 21/5⟩] 4)).id, 1⟩, ⟨some (choose (group_games_by_complexity [(⟨100, "X", 1, 4, 4⟩ : Game), ⟨101, "Y", 1, 4, 21/5⟩] 4)).id, 2⟩, ⟨some (choose (group_games_by_complexity [(⟨100, "X", 1, 4, 4⟩ : Game), ⟨101, "Y", 1, 4, 21/5⟩] 4)).id, 3⟩] := by
      unfold resolveVotes
      simp only [List.flatMap_cons, List.flatMap_nil]
      simp only [hm4, hlookup]
      norm_num
    refine ⟨hres, ?_⟩
    rw [hres]
    rcases List.mem_cons.1 hmem with h | h2
    · rw [h]; decide
    · have h : choose (group_games_by_complexity [(⟨100, "X", 1, 4, 4⟩ : Game), ⟨101, "Y", 1, 4, 21/5⟩] 4) = ⟨101, "Y", 1, 4, 21/5⟩ := by simpa using h2
      rw [h]; decide

/-- C2 witness: with the head-picking chooser the draw lands on `X`;
all three votes resolve to `X` and `X` scores `3.0`. -/
theorem category_first_vote_wins_witness :
    resolveVotes
        (buildCategoryResolutions (fun l => l.headD ⟨0, "x", 1, 4, 0⟩)
          (group_games_by_complexity [(⟨100, "X", 1, 4, 4⟩ : Game), ⟨101, "Y", 1, 4, 21/5⟩]) [⟨"p", 1, some (-4), "a"⟩, ⟨"p", 2, some (-4), "b"⟩, ⟨"p", 3, some (-4), "c"⟩]) [⟨"p", 1, some (-4), "a"⟩, ⟨"p", 2, some (-4), "b"⟩, ⟨"p", 3, some (-4), "c"⟩] =
      [⟨some 100, 1⟩, ⟨some 100, 2⟩, ⟨some 100, 3⟩] ∧
    (calculate_poll_winner [(⟨100, "X", 1, 4, 4⟩ : Game), ⟨101, "Y", 1, 4, 21/5⟩]
        [(⟨some 100, 1⟩ : RVote), ⟨some 100, 2⟩, ⟨some 100, 3⟩] []
        false none).2.1.lookup "X" = some 3 := by
  have h := (category_first_vote_wins (fun l => l.headD ⟨0, "x", 1, 4, 0⟩)).2 (by decide)
  exact ⟨h.1.trans (by decide), by decide⟩

end GameNight